import Mathlib

/-!
# Verification of the whisper_LLM pipeline (src/app.py, src/audio.py)

Shallow embedding of the three worker stages of the application:

* `ConversionWorker.run` (src/audio.py): chunked transcription;
* `SummarizationWorker.run` (src/app.py): stage-1 extraction with the
  plan / proposed-plan aliasing and caching rule;
* `ClassificationWorker._extract_separate_texts` and
  `ClassificationWorker.run` (src/app.py): stage-2 decoding and insertion.

Python strings are modelled as `List Char` / `String`; the handler objects
(`Summarizer` methods, the Whisper model) are oracles passed as functions;
exceptions are modelled with `Except`/`Option`.  GUI-only signals
(`status_updated`, which carries free-form human-readable text) are not part
of the event traces; `progress_updated`, `partial_result_updated` and the
completion/failure signals are modelled exactly, in emission order.
Integer arithmetic is exact (Python's float detour
`int(((i + 1) / num_chunks) * 100)` is modelled as exact floor division;
see the discussion of claim C7, which is the only claim whose truth value
depends on IEEE rounding).
-/

/-! ## Python string primitives -/

/-- The default whitespace set of Python's `str.strip` / `str.rstrip`
(characters `c` with `c.isspace()`). -/
def pySpace (c : Char) : Bool :=
  let n := c.toNat
  (9 ≤ n && n ≤ 13) || n == 32 || (28 ≤ n && n ≤ 31) || n == 0x85 ||
    n == 0xA0 || n == 0x1680 || (0x2000 ≤ n && n ≤ 0x200A) ||
    n == 0x2028 || n == 0x2029 || n == 0x202F || n == 0x205F || n == 0x3000

/-- Python `str.lstrip()`. -/
def pyLStrip (s : List Char) : List Char := s.dropWhile pySpace

/-- Python `str.rstrip()`. -/
def pyRStrip (s : List Char) : List Char :=
  (s.reverse.dropWhile pySpace).reverse

/-- Python `str.strip()`. -/
def pyStrip (s : List Char) : List Char := pyRStrip (pyLStrip s)

/-- `str.strip()` on `String`. -/
def pyStripS (s : String) : String := ⟨pyStrip s.data⟩

/-- Python `str.split("\n")` (single-character separator, no collapsing:
`"".split("\n") = [""]`). -/
def splitNl : List Char → List (List Char)
  | [] => [[]]
  | c :: rest =>
    if c = '\n' then [] :: splitNl rest
    else
      match splitNl rest with
      | [] => [[c]]
      | p :: ps => (c :: p) :: ps

/-- Join a list of strings with a separator; Python `sep.join(xs)`. -/
def joinSep (sep : List Char) : List (List Char) → List Char
  | [] => []
  | [x] => x
  | x :: xs => x ++ sep ++ joinSep sep xs

/-- Python `sep.join(xs)` on `String`. -/
def joinStr (sep : String) : List String → String
  | [] => ""
  | [x] => x
  | x :: xs => x ++ sep ++ joinStr sep xs

/-- Python `str.replace(pat, rep)` (left-to-right, non-overlapping), for a
non-empty pattern.  The fuel argument is the length of the remaining input;
every step consumes at least one input character, so the fuel never runs out
and the function computes the exact replacement. -/
def pyReplaceGo (pat rep : List Char) : Nat → List Char → List Char
  | 0, s => s
  | fuel + 1, s =>
    if pat ≠ [] ∧ pat.isPrefixOf s then
      rep ++ pyReplaceGo pat rep fuel (s.drop pat.length)
    else
      match s with
      | [] => []
      | c :: rest => c :: pyReplaceGo pat rep fuel rest

/-- Python `str.replace` on `String` (non-empty pattern). -/
def pyReplace (s pat rep : String) : String :=
  ⟨pyReplaceGo pat.data rep.data s.data.length s.data⟩

/-! ### The 32-dash separator of the section blob

`SummarizationWorker.run` joins sections with
`"\n--------------------------------\n"` and
`ClassificationWorker._extract_separate_texts` splits the blob on the bare
32-dash line `"--------------------------------"`.  Because the separator is
a run of a single repeated character, Python's `str.split` on it is
faithfully implemented by a left-to-right scanner counting consecutive
dashes (first occurrence wins, non-overlapping). -/

/-- The literal separator: 32 dashes. -/
def dash32 : List Char := List.replicate 32 '-'

/-- Scanner state: `k` pending dashes (0–31) not yet flushed into the current
piece `cur`.  When the 32nd consecutive dash arrives the piece is emitted. -/
def splitSepGo : List Char → Nat → List Char → List (List Char)
  | [], k, cur => [cur ++ List.replicate k '-']
  | c :: rest, k, cur =>
    if c = '-' then
      if k = 31 then cur :: splitSepGo rest 0 []
      else splitSepGo rest (k + 1) cur
    else splitSepGo rest 0 (cur ++ List.replicate k '-' ++ [c])

/-- Python `s.split("--------------------------------")`. -/
def splitSep (s : List Char) : List (List Char) := splitSepGo s 0 []

/-- `true` iff `s` contains 32 consecutive dashes, i.e. an occurrence of the
separator (same scanner as `splitSepGo`). -/
def hasDash32Go : List Char → Nat → Bool
  | [], _ => false
  | c :: rest, k =>
    if c = '-' then
      if k = 31 then true else hasDash32Go rest (k + 1)
    else hasDash32Go rest 0

/-- `true` iff `s` contains an occurrence of the 32-dash separator. -/
def hasDash32 (s : List Char) : Bool := hasDash32Go s 0

/-! ## JSON values and `json.loads`

`_extract_separate_texts` parses each body with `json.loads` (strict mode).
`PyVal` models the Python values produced.  The recursive-descent parser
below covers the JSON fragment that matters to the pipeline: objects,
arrays, strings with the single-character escapes, integer numbers,
`true` / `false` / `null`.  Numbers with a fraction or exponent (IEEE
floats) and `\uXXXX` escapes are outside the model and make the parse fail.
None of the theorems below depends on the parser's verdict beyond concrete
inputs, where the fragment agrees with `json.loads`. -/

inductive PyVal where
  | null : PyVal
  | bool (b : Bool) : PyVal
  | num (n : Int) : PyVal
  | str (s : String) : PyVal
  | arr (elems : List PyVal) : PyVal
  | obj (fields : List (String × PyVal)) : PyVal

/-- Whitespace skipped by the strict JSON parser (space, tab, newline, CR). -/
def jsonWs (c : Char) : Bool := c = ' ' || c = '\t' || c = '\n' || c = '\r'

def skipWs (s : List Char) : List Char := s.dropWhile jsonWs

/-- Parse the characters of a JSON string literal after the opening quote.
Rejects raw control characters (strict mode) and unsupported escapes. -/
def parseJStr : Nat → List Char → Option (List Char × List Char)
  | 0, _ => none
  | _, [] => none
  | fuel + 1, c :: rest =>
    if c = '"' then some ([], rest)
    else if c = '\\' then
      match rest with
      | [] => none
      | e :: rest' =>
        let dec : Option Char :=
          if e = '"' then some '"' else if e = '\\' then some '\\'
          else if e = '/' then some '/' else if e = 'b' then some (Char.ofNat 8)
          else if e = 'f' then some (Char.ofNat 12) else if e = 'n' then some '\n'
          else if e = 'r' then some '\r' else if e = 't' then some '\t'
          else none
        match dec with
        | none => none
        | some d =>
          match parseJStr fuel rest' with
          | none => none
          | some (cs, rem) => some (d :: cs, rem)
    else if c.toNat < 32 then none
    else
      match parseJStr fuel rest with
      | none => none
      | some (cs, rem) => some (c :: cs, rem)

/-- Parse a JSON integer (digits after an optional minus sign); fails when a
fraction or exponent follows (floats are outside the model) or on a leading
zero followed by more digits. -/
def parseJInt (s : List Char) : Option (Int × List Char) :=
  let (neg, t) := match s with
    | '-' :: t => (true, t)
    | _ => (false, s)
  let digits := t.takeWhile Char.isDigit
  let rest := t.dropWhile Char.isDigit
  if digits = [] then none
  else if digits.length > 1 ∧ digits.headI = '0' then none
  else
    match rest with
    | '.' :: _ => none
    | 'e' :: _ => none
    | 'E' :: _ => none
    | _ =>
      let n : Nat := digits.foldl (fun a c => a * 10 + (c.toNat - 48)) 0
      some (if neg then -(n : Int) else (n : Int), rest)

mutual

/-- Recursive-descent JSON value parser (strict, fragment documented above). -/
def parseJVal : Nat → List Char → Option (PyVal × List Char)
  | 0, _ => none
  | fuel + 1, s =>
    match s with
    | [] => none
    | 'n' :: 'u' :: 'l' :: 'l' :: rest => some (.null, rest)
    | 't' :: 'r' :: 'u' :: 'e' :: rest => some (.bool true, rest)
    | 'f' :: 'a' :: 'l' :: 's' :: 'e' :: rest => some (.bool false, rest)
    | '"' :: rest =>
      match parseJStr (rest.length + 1) rest with
      | none => none
      | some (cs, rem) => some (.str ⟨cs⟩, rem)
    | '{' :: rest =>
      let rest' := skipWs rest
      match rest' with
      | '}' :: rem => some (.obj [], rem)
      | _ =>
        match parseJMembers fuel rest' with
        | none => none
        | some (fs, rem) => some (.obj fs, rem)
    | '[' :: rest =>
      let rest' := skipWs rest
      match rest' with
      | ']' :: rem => some (.arr [], rem)
      | _ =>
        match parseJItems fuel rest' with
        | none => none
        | some (xs, rem) => some (.arr xs, rem)
    | _ =>
      match parseJInt s with
      | none => none
      | some (n, rest) => some (.num n, rest)

/-- Parse `"key": value (, "key": value)*` followed by `}`. -/
def parseJMembers : Nat → List Char → Option (List (String × PyVal) × List Char)
  | 0, _ => none
  | fuel + 1, s =>
    match s with
    | '"' :: rest =>
      match parseJStr (rest.length + 1) rest with
      | none => none
      | some (k, rem) =>
        match skipWs rem with
        | ':' :: rem2 =>
          match parseJVal fuel (skipWs rem2) with
          | none => none
          | some (v, rem3) =>
            match skipWs rem3 with
            | ',' :: rem4 =>
              match parseJMembers fuel (skipWs rem4) with
              | none => none
              | some (fs, rem5) => some ((⟨k⟩, v) :: fs, rem5)
            | '}' :: rem4 => some ([(⟨k⟩, v)], rem4)
            | _ => none
        | _ => none
    | _ => none

/-- Parse `value (, value)*` followed by `]`. -/
def parseJItems : Nat → List Char → Option (List PyVal × List Char)
  | 0, _ => none
  | fuel + 1, s =>
    match parseJVal fuel s with
    | none => none
    | some (v, rem) =>
      match skipWs rem with
      | ',' :: rem2 =>
        match parseJItems fuel (skipWs rem2) with
        | none => none
        | some (xs, rem3) => some (v :: xs, rem3)
      | ']' :: rem2 => some ([v], rem2)
      | _ => none

end

/-- `json.loads` (strict; the whole input must be consumed). -/
def pyJsonLoads (s : List Char) : Option PyVal :=
  match parseJVal (s.length + 1) (skipWs s) with
  | none => none
  | some (v, rem) => if skipWs rem = [] then some v else none

/-! ## `json.dumps({"error": msg}, ensure_ascii=False)` -/

def hexDigit (n : Nat) : Char :=
  Char.ofNat (if n < 10 then 48 + n else 87 + n)

/-- Escaping applied by `json.dumps` with `ensure_ascii=False`. -/
def jsonEscapeChar (c : Char) : List Char :=
  if c = '"' then ['\\', '"']
  else if c = '\\' then ['\\', '\\']
  else if c = '\n' then ['\\', 'n']
  else if c = '\t' then ['\\', 't']
  else if c = '\r' then ['\\', 'r']
  else if c = Char.ofNat 8 then ['\\', 'b']
  else if c = Char.ofNat 12 then ['\\', 'f']
  else if c.toNat < 32 then
    ['\\', 'u', '0', '0', hexDigit (c.toNat / 16), hexDigit (c.toNat % 16)]
  else [c]

def jsonEscape (s : String) : String := ⟨s.data.foldr (fun c acc => jsonEscapeChar c ++ acc) []⟩

/-- `json.dumps({"error": msg}, ensure_ascii=False)` — the per-entry error
payload of both stages' exception handlers. -/
def jsonError (msg : String) : String :=
  "\x7b\"error\": \"" ++ jsonEscape msg ++ "\"\x7d"

/-! ## The catalog (`SUMMARY_CONFIGS`, `DOCUMENT_TYPE_MAPPING`) -/

structure SummaryConfig where
  summary_key : String
  run_method : String
  insert_method : String
  status_label : String
deriving DecidableEq, Repr

/-- `SUMMARY_CONFIGS` from src/app.py. -/
def SUMMARY_CONFIGS : List SummaryConfig := [
  ⟨"サービス担当者会議記録（保存用）標準様式　各種加算標準様式（Excel形式：92KB）.xlsx::特定事業所加算　保存様式",
   "run_sheet1", "insert_sheet1", "特定事業所加算 保存様式"⟩,
  ⟨"サービス担当者会議記録（保存用）標準様式　各種加算標準様式（Excel形式：92KB）.xlsx::入院時情報提供書",
   "run_sheet2", "insert_sheet2", "入院時情報提供書"⟩,
  ⟨"サービス担当者会議記録（保存用）標準様式　各種加算標準様式（Excel形式：92KB）.xlsx::退院・退所加算　保存様式",
   "run_sheet3", "insert_sheet3", "退院・退所加算 保存様式"⟩,
  ⟨"サービス担当者会議記録（保存用）標準様式　各種加算標準様式（Excel形式：92KB）.xlsx::居宅介護支援事業所等連携加算　保存様式",
   "run_sheet4", "insert_sheet4", "居宅介護支援事業所等連携加算 保存様式"⟩,
  ⟨"サービス担当者会議記録（保存用）標準様式　各種加算標準様式（Excel形式：92KB）.xlsx::医療・保育・教育連携加算　保存様式",
   "run_sheet5", "insert_sheet5", "医療・保育・教育連携加算 保存様式"⟩,
  ⟨"サービス担当者会議記録（保存用）標準様式　各種加算標準様式（Excel形式：92KB）.xlsx::サービス担当者会議記録　保存様式",
   "run_sheet6", "insert_sheet6", "サービス担当者会議記録 保存様式"⟩,
  ⟨"サービス担当者会議記録（保存用）標準様式　各種加算標準様式（Excel形式：92KB）.xlsx::サービス提供時モニタリング記録　保存様式",
   "run_sheet7", "insert_sheet7", "サービス提供時モニタリング記録 保存様式"⟩,
  ⟨"サービス担当者会議記録（保存用）標準様式　各種加算標準様式（Excel形式：92KB）.xlsx::体制加算　記録",
   "run_sheet8", "insert_sheet8", "体制加算 記録"⟩,
  ⟨"様式11　モニタリング報告書（Excel形式：45KB）.xlsx",
   "run_sheet_monitor", "insert_monitor_sheet", "モニタリング報告書"⟩,
  ⟨"様式4　サービス等利用計画案・障害児支援利用計画案（Excel形式：45KB）.xlsx",
   "run_sheet_proposedPlan", "insert_proposedPlan_sheet", "サービス等利用計画案"⟩,
  ⟨"様式8　サービス等利用計画・障害児支援利用計画（Excel形式：46KB）.xlsx",
   "run_sheet_plan", "insert_Plan_sheet", "サービス等利用計画"⟩,
  ⟨"様式2、3　アセスメント票（訪問票兼生活支援アセスメント票）（Excel形式：44KB）.xlsx",
   "run_sheet_assessment", "insert_assessment_sheet", "アセスメント票"⟩]

/-- `SUMMARY_KEYS = [cfg["summary_key"] for cfg in SUMMARY_CONFIGS]`.
Membership in this list models membership in `SUMMARY_KEY_SET`. -/
def SUMMARY_KEYS : List String := SUMMARY_CONFIGS.map SummaryConfig.summary_key

/-- `DOCUMENT_TYPE_MAPPING` as a function; an identifier that is not a key of
the Python dict maps to `[]` (`if doc_type in DOCUMENT_TYPE_MAPPING`). -/
def DOCUMENT_TYPE_MAPPING : String → List Nat
  | "service_meeting" => [0, 1, 2, 3, 4, 5, 6, 7]
  | "monitoring" => [8]
  | "proposed_plan" => [9]
  | "plan" => [10]
  | "assessment" => [11]
  | _ => []

/-- The resolved index set of a selection:
`selected_indices = set().update(DOCUMENT_TYPE_MAPPING[t] for t in selected)`;
an index is selected iff some selected document type contains it. -/
def selectedIndices (selectedDocTypes : List String) : List Nat :=
  (List.range SUMMARY_CONFIGS.length).filter
    (fun i => selectedDocTypes.any (fun d => (DOCUMENT_TYPE_MAPPING d).contains i))

/-- `filtered_configs = [cfg for idx, cfg in enumerate(SUMMARY_CONFIGS) if idx
in selected_indices]` — identical in both workers. -/
def filteredConfigs (selectedDocTypes : List String) : List SummaryConfig :=
  (selectedIndices selectedDocTypes).filterMap (fun i => SUMMARY_CONFIGS[i]?)

/-! ## `ClassificationWorker._extract_separate_texts` (the SectionCodec decoder) -/

/-- `[line.rstrip() for line in section.split("\n") if line.strip()]`. -/
def normLines (blk : List Char) : List (List Char) :=
  ((splitNl blk).filter (fun l => pyStrip l ≠ [])).map pyRStrip

/-- Lines 365–373 of src/app.py: join the body lines, strip, parse as JSON,
else wrap the raw text under `"content"`; an empty body is the empty dict. -/
def bodyToVal (restLines : List (List Char)) : PyVal :=
  let content := pyStrip (joinSep ['\n'] restLines)
  if content = [] then .obj []
  else
    match pyJsonLoads content with
    | some v => v
    | none => .obj [("content", .str ⟨content⟩)]

/-- The loop body of `_extract_separate_texts` for one block: header key
(trailing colon stripped), catalog filter, body parse.  `none` means the
block contributes nothing (blank block or unknown key). -/
def blockToEntry (blk : List Char) : Option (String × PyVal) :=
  match normLines blk with
  | [] => none
  | headerLine :: restLines =>
    let headerKey : List Char :=
      if headerLine.getLast? = some ':' then pyStrip headerLine.dropLast
      else pyStrip headerLine
    if (⟨headerKey⟩ : String) ∈ SUMMARY_KEYS then
      some (⟨headerKey⟩, bodyToVal restLines)
    else none

/-- Python dict assignment `d[k] = v`: overwrite in place, else append. -/
def dictUpsert (d : List (String × PyVal)) (k : String) (v : PyVal) :
    List (String × PyVal) :=
  match d with
  | [] => [(k, v)]
  | (k', v') :: t => if k' = k then (k, v) :: t else (k', v') :: dictUpsert t k v

/-- `ClassificationWorker._extract_separate_texts` (src/app.py 341–377). -/
def extractSeparateTexts (summaryText : String) : List (String × PyVal) :=
  if pyStrip summaryText.data = [] then []
  else
    (splitSep summaryText.data).foldl
      (fun d blk =>
        match blockToEntry blk with
        | some (k, v) => dictUpsert d k v
        | none => d)
      []

/-! ## The SectionCodec encoder (`SummarizationWorker.run`, lines 312 and 316)

Each section is rendered as `f"{key}:\n{content}"`; the blob joins the
rendered sections with `"\n--------------------------------\n"`. -/

/-- `f"{key}:\n{content}"`. -/
def renderSection (sec : String × String) : String :=
  sec.1 ++ ":\n" ++ sec.2

/-- `"\n--------------------------------\n".join(sections)`. -/
def encodeSections (secs : List (String × String)) : String :=
  joinStr "\n--------------------------------\n" (secs.map renderSection)

/-- Decode-normalization of a single payload text: what
`_extract_separate_texts` makes of a block body (blank lines discarded,
remaining lines right-trimmed, then parsed). -/
def blockBodyToVal (payload : String) : PyVal :=
  bodyToVal (normLines payload.data)

/-! ## `ConversionWorker.run` (src/audio.py)

The model starts at the audio-loading step (line 69); the earlier
file-existence and model-availability checks concern the external
environment.  The Whisper engine is the oracle `segments : Nat → List String`
giving the ordered `segment.text` spans of chunk `i`; per the source the
chunk text is their concatenation, stripped.  `math.ceil(duration_ms /
chunk_length_ms)` is modelled as the exact ceiling (and a zero
`chunk_length_ms` raises `ZeroDivisionError`, caught by the outer handler). -/

/-- `math.ceil(a / b)` for integers, `b ≠ 0` (exact rational ceiling). -/
def ceilDivInt (a b : Int) : Int := -((-a).fdiv b)

inductive AEvent where
  | progress (n : Nat)
  | interim (s : String)
  | completedText (s : String)
  | failedText (s : String)
deriving DecidableEq, Repr

/-- `text = "".join(chunk_text_parts).strip()` for chunk `i`. -/
def chunkText (segments : Nat → List String) (i : Nat) : String :=
  pyStripS (joinStr "" (segments i))

/-- `"\n\n".join(paragraphs)` after `n` chunks. -/
def transcriptUpTo (segments : Nat → List String) (n : Nat) : String :=
  joinStr "\n\n" ((List.range n).map (chunkText segments))

/-- `percent = int(((i + 1) / num_chunks) * 100)` followed by
`progress_value = int((percent / 100) * 100)`, in exact arithmetic. -/
def transcriptionProgress (numChunks i : Nat) : Nat :=
  let percent := ((i + 1) * 100) / numChunks
  (percent * 100) / 100

/-- `num_chunks = math.ceil(duration_ms / chunk_length_ms)` with
`chunk_length_ms = chunk_length_sec * 1000`; `range(num_chunks)` is empty
for a non-positive value. -/
def numChunksOf (durationMs : Nat) (chunkLengthSec : Int) : Nat :=
  (ceilDivInt durationMs (chunkLengthSec * 1000)).toNat

/-- The chunk windows `[start_ms, end_ms)` of the loop (lines 91–93):
`start_ms = i * chunk_length_ms`, `end_ms = min((i + 1) * chunk_length_ms,
duration_ms)`, in loop order. -/
def chunkWindows (durationMs : Nat) (chunkLengthSec : Int) : List (Int × Int) :=
  let cMs := chunkLengthSec * 1000
  (List.range (numChunksOf durationMs chunkLengthSec)).map
    (fun (i : Nat) => ((i : Int) * cMs, min (((i : Int) + 1) * cMs) (durationMs : Int)))

/-- The event trace of `ConversionWorker.run` (progress, partial-result and
completion/failure signals, in emission order). -/
def conversionRun (durationMs : Nat) (chunkLengthSec : Int)
    (segments : Nat → List String) : List AEvent :=
  if chunkLengthSec * 1000 = 0 then
    [.progress 0, .progress 0, .failedText "division by zero"]
  else
    let numChunks := numChunksOf durationMs chunkLengthSec
    [.progress 0, .progress 0,
     .interim ("📦 " ++ toString numChunks ++ " 個のチャンクに分割しています…"),
     .progress 0] ++
    (List.range numChunks).flatMap (fun i =>
      [.interim ("📝 " ++ transcriptUpTo segments (i + 1)),
       .progress (transcriptionProgress numChunks i)]) ++
    [.progress 100, .completedText (transcriptUpTo segments numChunks)]

def aeventProgress? : AEvent → Option Nat
  | .progress n => some n
  | .interim _ => none
  | .completedText _ => none
  | .failedText _ => none

def aeventInterim? : AEvent → Option String
  | .interim s => some s
  | .progress _ => none
  | .completedText _ => none
  | .failedText _ => none

def aeventCompleted? : AEvent → Option String
  | .completedText s => some s
  | .progress _ => none
  | .interim _ => none
  | .failedText _ => none

def aeventFailed? : AEvent → Option String
  | .failedText s => some s
  | .progress _ => none
  | .interim _ => none
  | .completedText _ => none

/-- The partial-result payloads of a trace, in order. -/
def interimTexts (events : List AEvent) : List String :=
  events.filterMap aeventInterim?

/-- The progress payloads of a trace, in order. -/
def progressValues (events : List AEvent) : List Nat :=
  events.filterMap aeventProgress?

/-- The completion payloads of a trace. -/
def completedTexts (events : List AEvent) : List String :=
  events.filterMap aeventCompleted?

/-- The failure payloads of a trace. -/
def failedTexts (events : List AEvent) : List String :=
  events.filterMap aeventFailed?

/-! ## `SummarizationWorker.run` (src/app.py 216–323, Stage 1)

The `Summarizer` client is the oracle
`handlers : String → Option (Except String String)` mapping a method name to
`none` when `getattr(client, name, None)` is not callable, `some (.error e)`
when calling it raises an exception with message `e`, and `some (.ok v)` when
it returns `v`.  The model records, besides the emitted signals, the
`sections` list being built and every actual handler invocation (in call
order), which the aliasing claims are about. -/

inductive SEvent where
  | progress (n : Nat)
  | completedText (s : String)
  | failedText (s : String)
deriving DecidableEq, Repr

/-- The field-name rewrite of the aliasing rule (lines 268, 278):
`.replace('"計画案::', '"計画::').replace('"計画案週::', '"週間計画::')`. -/
def rewritePlanFields (s : String) : String :=
  pyReplace (pyReplace s "\"計画案::" "\"計画::") "\"計画案週::" "\"週間計画::"

/-- One iteration of the Stage-1 loop (lines 258–310) for config `cfg`,
given the cached `proposed_plan_result`.  Returns the `section_content`,
the new cache, and the handler invocations performed. -/
def stage1Entry (handlers : String → Option (Except String String))
    (cache : Option String) (cfg : SummaryConfig) :
    String × Option String × List String :=
  if cfg.run_method = "run_sheet_plan" then
    match cache with
    | some r => (rewritePlanFields r, some r, [])
    | none =>
      match handlers "run_sheet_proposedPlan" with
      | some (.ok v) =>
        (rewritePlanFields (pyStripS v), some (pyStripS v), ["run_sheet_proposedPlan"])
      | some (.error e) => (jsonError e, none, ["run_sheet_proposedPlan"])
      | none =>
        match handlers "run_sheet_plan" with
        | some (.ok v) => (pyStripS v, none, ["run_sheet_plan"])
        | some (.error e) => (jsonError e, none, ["run_sheet_plan"])
        | none => (jsonError "Method run_sheet_plan not found", none, [])
  else
    match handlers cfg.run_method with
    | some (.ok v) =>
      (pyStripS v,
       if cfg.run_method = "run_sheet_proposedPlan" then some (pyStripS v) else cache,
       [cfg.run_method])
    | some (.error e) => (jsonError e, cache, [cfg.run_method])
    | none => (jsonError ("Method " ++ cfg.run_method ++ " not found"), cache, [])

/-- The Stage-1 loop over the filtered configs: rendered sections
(`f"{key}:\n{content}"`) and handler invocations, threading the cache. -/
def stage1Process (handlers : String → Option (Except String String)) :
    Option String → List SummaryConfig → List String × List String
  | _, [] => ([], [])
  | cache, cfg :: rest =>
    let (content, cache', inv) := stage1Entry handlers cache cfg
    let (secs, invs) := stage1Process handlers cache' rest
    ((cfg.summary_key ++ ":\n" ++ content) :: secs, inv ++ invs)

/-- `progress = 15 + int((idx / total_sections) * 75)`, clamped at 95;
`idx` is 1-based (exact arithmetic). -/
def stage1Progress (total idx : Nat) : Nat :=
  min (15 + (idx * 75) / total) 95

/-- Result of a Stage-1 run: the emitted signals, the `sections` list and
the handler invocations in call order. -/
structure Stage1Run where
  events : List SEvent
  sections : List String
  invoked : List String
deriving DecidableEq, Repr

/-- `SummarizationWorker.run`.  The selection validation (lines 227–239)
precedes every handler invocation; on success the summary blob joins the
sections with the separator line and `100` is emitted once. -/
def summarizationRun (handlers : String → Option (Except String String))
    (selectedDocTypes : List String) : Stage1Run :=
  if selectedDocTypes = [] then
    { events := [.progress 5,
        .failedText "出力する帳票が選択されていません。少なくとも1つの帳票を選択してください。"],
      sections := [], invoked := [] }
  else if selectedIndices selectedDocTypes = [] then
    { events := [.progress 5,
        .failedText "選択された帳票に対応する設定が見つかりませんでした。"],
      sections := [], invoked := [] }
  else
    let filtered := filteredConfigs selectedDocTypes
    let total := filtered.length
    let (secs, invs) := stage1Process handlers none filtered
    let summary := joinStr "\n--------------------------------\n" secs
    { events := [.progress 5, .progress 5, .progress 10, .progress 15] ++
        (List.range total).map (fun i => SEvent.progress (stage1Progress total (i + 1))) ++
        [.progress 100, .completedText summary],
      sections := secs,
      invoked := invs }

def seventProgress? : SEvent → Option Nat
  | .progress n => some n
  | .completedText _ => none
  | .failedText _ => none

def seventFailed? : SEvent → Option String
  | .failedText s => some s
  | .progress _ => none
  | .completedText _ => none

/-- The progress payloads of a Stage-1 trace. -/
def sProgressValues (events : List SEvent) : List Nat :=
  events.filterMap seventProgress?

/-- The failure payloads of a Stage-1 trace. -/
def sFailedTexts (events : List SEvent) : List String :=
  events.filterMap seventFailed?

/-! ## `ClassificationWorker.run` (src/app.py 379–477, Stage 2)

The insertion side of the `Summarizer` client is the oracle
`insHandlers : String → Option (PyVal → Except String String)`: `none` when
the method is not callable, otherwise the function from the payload to the
saved path or the raised exception.  Note that the not-callable branch
(line 444) `continue`s before the progress emission, so such an entry emits
no progress value. -/

inductive InsRes where
  | success (path : String) (hasData : Bool)
  | failure (error : String)
deriving DecidableEq, Repr

inductive CEvent where
  | progress (n : Nat)
  | completedRun (classification : List (String × PyVal))
      (insertion : List (String × InsRes))
  | failedText (s : String)

/-- Lines 430–439: `data = extracted_texts.get(summary_key)`; a dict is used
as-is with `has_data = bool(data)`; a missing entry gives an empty payload
without data; any other value is wrapped under `"content"` with data. -/
def classifyPayload (extracted : List (String × PyVal)) (key : String) :
    PyVal × Bool :=
  match extracted.lookup key with
  | some (PyVal.obj fs) => (.obj fs, !fs.isEmpty)
  | none => (.obj [], false)
  | some v => (.obj [("content", v)], true)

/-- Lines 441–457 for one config: the entry's insertion result. -/
def stage2Result (insHandlers : String → Option (PyVal → Except String String))
    (extracted : List (String × PyVal)) (cfg : SummaryConfig) : InsRes :=
  let pd := classifyPayload extracted cfg.summary_key
  match insHandlers cfg.insert_method with
  | none => .failure ("Method " ++ cfg.insert_method ++ " not found")
  | some f =>
    match f pd.1 with
    | .ok path => .success path pd.2
    | .error e => .failure e

/-- `insertion_results` over the filtered configs, in processing order. -/
def stage2Results (insHandlers : String → Option (PyVal → Except String String))
    (extracted : List (String × PyVal)) (cfgs : List SummaryConfig) :
    List (String × InsRes) :=
  cfgs.map (fun cfg => (cfg.summary_key, stage2Result insHandlers extracted cfg))

/-- `progress = 10 + int((idx / total_sections) * 90)` clamped at 100,
`idx` 1-based (exact arithmetic). -/
def stage2Progress (total idx : Nat) : Nat :=
  min (10 + (idx * 90) / total) 100

/-- Result of a Stage-2 run. -/
structure Stage2Run where
  events : List CEvent
  results : List (String × InsRes)
  classification : List (String × PyVal)
  invoked : List String

/-- `ClassificationWorker.run`: decode precedes the selection validation;
the loop isolates per-entry failures; 100 is emitted after the loop. -/
def classificationRun (insHandlers : String → Option (PyVal → Except String String))
    (summarizedText : String) (selectedDocTypes : List String) : Stage2Run :=
  let extracted := extractSeparateTexts summarizedText
  if selectedDocTypes = [] then
    { events := [.progress 0, .progress 3, .progress 8, .progress 10,
        .failedText "出力する帳票が選択されていません。少なくとも1つの帳票を選択してください。"],
      results := [], classification := [], invoked := [] }
  else if selectedIndices selectedDocTypes = [] then
    { events := [.progress 0, .progress 3, .progress 8, .progress 10,
        .failedText "選択された帳票に対応する設定が見つかりませんでした。"],
      results := [], classification := [], invoked := [] }
  else
    let filtered := filteredConfigs selectedDocTypes
    let total := filtered.length
    let results := stage2Results insHandlers extracted filtered
    let classification := filtered.filterMap
      (fun cfg => (extracted.lookup cfg.summary_key).map (fun v => (cfg.summary_key, v)))
    { events := [.progress 0, .progress 3, .progress 8, .progress 10] ++
        filtered.enum.flatMap (fun p =>
          if (insHandlers p.2.insert_method).isSome then
            [CEvent.progress (stage2Progress total (p.1 + 1))]
          else []) ++
        [.progress 100, .completedRun classification results],
      results := results,
      classification := classification,
      invoked := filtered.flatMap (fun cfg =>
        if (insHandlers cfg.insert_method).isSome then [cfg.insert_method] else []) }

def ceventProgress? : CEvent → Option Nat
  | .progress n => some n
  | .completedRun _ _ => none
  | .failedText _ => none

def ceventFailed? : CEvent → Option String
  | .failedText s => some s
  | .progress _ => none
  | .completedRun _ _ => none

/-- The progress payloads of a Stage-2 trace. -/
def cProgressValues (events : List CEvent) : List Nat :=
  events.filterMap ceventProgress?

/-- The failure payloads of a Stage-2 trace. -/
def cFailedTexts (events : List CEvent) : List String :=
  events.filterMap ceventFailed?

def seventCompleted? : SEvent → Option String
  | .completedText s => some s
  | .progress _ => none
  | .failedText _ => none

/-- The completion payloads of a Stage-1 trace. -/
def sCompletedTexts (events : List SEvent) : List String :=
  events.filterMap seventCompleted?

def ceventCompleted? : CEvent →
    Option (List (String × PyVal) × List (String × InsRes))
  | .completedRun c i => some (c, i)
  | .progress _ => none
  | .failedText _ => none

/-- The completion payloads of a Stage-2 trace. -/
def cCompletedRuns (events : List CEvent) :
    List (List (String × PyVal) × List (String × InsRes)) :=
  events.filterMap ceventCompleted?

/-- The middle/last blocks produced by splitting an encoded blob on the bare
32-dash separator: every block after the first keeps the newline of
`"\n--…--\n"` on each side that touched a separator (proof infrastructure
for the round-trip theorems). -/
def midLast : List (List Char) → List (List Char)
  | [] => []
  | [b] => ['\n' :: b]
  | b :: rest => ('\n' :: (b ++ ['\n'])) :: midLast rest

/-! ## Arithmetic facts about the chunker -/

theorem ceilDivInt_spec (a b : Int) (hb : 0 < b) :
    b * ceilDivInt a b - b < a ∧ a ≤ b * ceilDivInt a b := by
  have hea : (-a).fdiv b = (-a) / b := Int.fdiv_eq_ediv _ hb.le
  have h1 := Int.ediv_add_emod (-a) b
  have h2 := Int.emod_nonneg (-a) (ne_of_gt hb)
  have h3 := Int.emod_lt_of_pos (-a) hb
  have key : b * ceilDivInt a b = a + (-a) % b := by
    unfold ceilDivInt
    rw [hea, mul_neg]
    omega
  rw [key]
  constructor <;> omega

/-- C4 — Chunk partition: for every positive duration and configured chunk
length the loop of `ConversionWorker.run` produces exactly
`ceil(duration_ms / chunk_length_ms)` windows, the `i`-th being
`[i*C, min((i+1)*C, D))`, in strictly ascending order; consecutive windows
meet exactly, the first starts at 0, the last ends at `D`, every window is
non-empty, and every window except possibly the last has length `C`; every
instant of `[0, D)` lies in a window (coverage; disjointness follows from
the chain equalities). -/
theorem chunk_partition (D : Nat) (Cs : Int) (hD : 0 < D) (hC : 0 < Cs) :
    (D : Int) ≤ (numChunksOf D Cs : Int) * (Cs * 1000) ∧
    ((numChunksOf D Cs : Int) - 1) * (Cs * 1000) < (D : Int) ∧
    (chunkWindows D Cs).length = numChunksOf D Cs ∧
    (∀ i, i < numChunksOf D Cs →
      (chunkWindows D Cs)[i]? =
        some ((i : Int) * (Cs * 1000), min (((i : Int) + 1) * (Cs * 1000)) (D : Int))) ∧
    (∀ i, i < numChunksOf D Cs →
      (i : Int) * (Cs * 1000) < min (((i : Int) + 1) * (Cs * 1000)) (D : Int)) ∧
    (∀ i, i + 1 < numChunksOf D Cs →
      min (((i : Int) + 1) * (Cs * 1000)) (D : Int) = ((i : Int) + 1) * (Cs * 1000)) ∧
    min ((numChunksOf D Cs : Int) * (Cs * 1000)) (D : Int) = (D : Int) ∧
    (∀ t : Int, 0 ≤ t → t < (D : Int) →
      ∃ i, i < numChunksOf D Cs ∧ (i : Int) * (Cs * 1000) ≤ t ∧
        t < min (((i : Int) + 1) * (Cs * 1000)) (D : Int)) := by
  set C : Int := Cs * 1000 with hCdef
  have hCpos : 0 < C := by positivity
  obtain ⟨hlow, hhigh⟩ := ceilDivInt_spec (D : Int) C hCpos
  have hqpos : 0 < ceilDivInt (D : Int) C := by
    by_contra h
    push_neg at h
    have : C * ceilDivInt (D : Int) C ≤ 0 := mul_nonpos_of_nonneg_of_nonpos hCpos.le h
    have hD' : (0 : Int) < (D : Int) := by exact_mod_cast hD
    omega
  have hN : (numChunksOf D Cs : Int) = ceilDivInt (D : Int) C := by
    unfold numChunksOf
    rw [← hCdef]
    exact Int.toNat_of_nonneg hqpos.le
  have hupper : (D : Int) ≤ (numChunksOf D Cs : Int) * C := by
    rw [hN, mul_comm]; exact hhigh
  have hlower : ((numChunksOf D Cs : Int) - 1) * C < (D : Int) := by
    rw [hN, sub_mul, one_mul, mul_comm]; omega
  have hw : chunkWindows D Cs =
      (List.range (numChunksOf D Cs)).map
        (fun (i : Nat) => ((i : Int) * C, min (((i : Int) + 1) * C) (D : Int))) := rfl
  refine ⟨hupper, hlower, ?_, ?_, ?_, ?_, ?_, ?_⟩
  · rw [hw]; simp
  · intro i hi
    rw [hw, List.getElem?_map, List.getElem?_range hi]
    rfl
  · intro i hi
    have h1 : (i : Int) * C < ((i : Int) + 1) * C := by nlinarith
    have h2 : (i : Int) * C < (D : Int) := by
      have hle : (i : Int) ≤ (numChunksOf D Cs : Int) - 1 := by
        have : (i : Int) < (numChunksOf D Cs : Int) := by exact_mod_cast hi
        omega
      have := mul_le_mul_of_nonneg_right hle hCpos.le
      omega
    exact lt_min h1 h2
  · intro i hi
    have hle : (i : Int) + 1 ≤ (numChunksOf D Cs : Int) - 1 := by
      have : (i : Int) + 1 < (numChunksOf D Cs : Int) := by exact_mod_cast hi
      omega
    have := mul_le_mul_of_nonneg_right hle hCpos.le
    exact min_eq_left (by omega)
  · exact min_eq_right hupper
  · intro t ht htD
    have htC : 0 ≤ t / C := Int.ediv_nonneg ht hCpos.le
    refine ⟨(t / C).toNat, ?_, ?_, ?_⟩
    · have h1 : t / C < (numChunksOf D Cs : Int) := by
        rw [Int.ediv_lt_iff_lt_mul hCpos]
        calc t < (D : Int) := htD
        _ ≤ (numChunksOf D Cs : Int) * C := hupper
      have h2 : ((t / C).toNat : Int) < (numChunksOf D Cs : Int) := by
        rw [Int.toNat_of_nonneg htC]; exact h1
      exact_mod_cast h2
    · rw [Int.toNat_of_nonneg htC]
      exact Int.ediv_mul_le t (ne_of_gt hCpos)
    · rw [Int.toNat_of_nonneg htC]
      have h1 : t < (t / C + 1) * C := Int.lt_ediv_add_one_mul_self t hCpos
      exact lt_min h1 htD

/-- Witness for `chunk_partition` at the spec's scenario: 125 s of audio with
60-second chunks gives the three windows `[0,60000)`, `[60000,120000)`,
`[120000,125000)` (milliseconds). -/
theorem chunk_partition_witness :
    (0 < 125000 ∧ 0 < (60 : Int)) ∧
    ((125000 : Int) ≤ (numChunksOf 125000 60 : Int) * (60 * 1000) ∧
      ((numChunksOf 125000 60 : Int) - 1) * (60 * 1000) < (125000 : Int) ∧
      (chunkWindows 125000 60).length = numChunksOf 125000 60 ∧
      (∀ i, i < numChunksOf 125000 60 →
        (chunkWindows 125000 60)[i]? =
          some ((i : Int) * (60 * 1000), min (((i : Int) + 1) * (60 * 1000)) (125000 : Int))) ∧
      (∀ i, i < numChunksOf 125000 60 →
        (i : Int) * (60 * 1000) < min (((i : Int) + 1) * (60 * 1000)) (125000 : Int)) ∧
      (∀ i, i + 1 < numChunksOf 125000 60 →
        min (((i : Int) + 1) * (60 * 1000)) (125000 : Int) = ((i : Int) + 1) * (60 * 1000)) ∧
      min ((numChunksOf 125000 60 : Int) * (60 * 1000)) (125000 : Int) = (125000 : Int) ∧
      (∀ t : Int, 0 ≤ t → t < (125000 : Int) →
        ∃ i, i < numChunksOf 125000 60 ∧ (i : Int) * (60 * 1000) ≤ t ∧
          t < min (((i : Int) + 1) * (60 * 1000)) (125000 : Int))) :=
  ⟨⟨by decide, by decide⟩, chunk_partition 125000 60 (by decide) (by decide)⟩

/-- `filterMap` distributes over `flatMap`. -/
theorem filterMap_flatMap_eq {α β γ : Type} (l : List α) (g : α → List γ)
    (f : γ → Option β) :
    (l.flatMap g).filterMap f = l.flatMap (fun x => (g x).filterMap f) := by
  induction l with
  | nil => rfl
  | cons x xs ih => simp [List.flatMap_cons, List.filterMap_append, ih]

/-- `(l.map (fun x => [f x])).flatten = l.map f`. -/
theorem flatten_map_singleton {α β : Type} (l : List α) (f : α → β) :
    (l.map (fun x => [f x])).flatten = l.map f := by
  induction l <;> simp [*]

/-- C9 counterexample — a zero-duration input does **not** fail: with the
default 60-second chunk length, `ConversionWorker.run` on `duration_ms = 0`
emits progress 100 and completes successfully with the empty transcript;
no failure signal is raised. -/
theorem conversion_zero_duration_succeeds :
    completedTexts (conversionRun 0 60 (fun _ => [])) = [""] ∧
    failedTexts (conversionRun 0 60 (fun _ => [])) = [] ∧
    progressValues (conversionRun 0 60 (fun _ => [])) = [0, 0, 0, 100] := by
  decide

/-- C9 amended — the run performs no `InvalidInput` validation of
`duration_ms` or the chunk length: a zero-duration input with a positive
chunk length completes successfully with zero chunks and an empty
transcript, and a zero chunk length fails with the generic
`ZeroDivisionError`-derived failure signal (message `division by zero`)
rather than a dedicated validation error. -/
theorem conversion_no_input_validation (Cs : Int) (hC : 0 < Cs)
    (D : Nat) (segments segments' : Nat → List String) :
    completedTexts (conversionRun 0 Cs segments) = [""] ∧
    failedTexts (conversionRun 0 Cs segments) = [] ∧
    conversionRun D 0 segments' =
      [.progress 0, .progress 0, .failedText "division by zero"] := by
  have hne : Cs * 1000 ≠ 0 := by positivity
  have h0 : numChunksOf 0 Cs = 0 := by
    simp [numChunksOf, ceilDivInt, Int.zero_fdiv]
  refine ⟨?_, ?_, ?_⟩
  · simp [conversionRun, hne, h0, completedTexts, transcriptUpTo, joinStr,
      aeventCompleted?]
  · simp [conversionRun, hne, h0, failedTexts, aeventFailed?]
  · simp [conversionRun]

/-- Witness for `conversion_no_input_validation` at `Cs = 60`, `D = 5`. -/
theorem conversion_no_input_validation_witness :
    0 < (60 : Int) ∧
    (completedTexts (conversionRun 0 60 (fun _ => ["x"])) = [""] ∧
     failedTexts (conversionRun 0 60 (fun _ => ["x"])) = [] ∧
     conversionRun 5 0 (fun _ => ["x"]) =
       [.progress 0, .progress 0, .failedText "division by zero"]) :=
  ⟨by decide,
   conversion_no_input_validation 60 (by decide) 5 (fun _ => ["x"]) (fun _ => ["x"])⟩

/-! ## C5 — transcript aggregation -/

/-- The partial-result payloads of a (non-failing) transcription run: the
chunk-count banner followed by, for each chunk `i`, `"📝 "` ++ the full
accumulated transcript of chunks `0..i`. -/
theorem conversion_interim_structure (D : Nat) (Cs : Int)
    (segments : Nat → List String) (hC : Cs * 1000 ≠ 0) :
    interimTexts (conversionRun D Cs segments) =
      ("📦 " ++ toString (numChunksOf D Cs) ++ " 個のチャンクに分割しています…") ::
        (List.range (numChunksOf D Cs)).map
          (fun i => "📝 " ++ transcriptUpTo segments (i + 1)) := by
  simp only [conversionRun, if_neg hC, interimTexts, List.filterMap_append,
    filterMap_flatMap_eq]
  simp [List.flatMap_def, flatten_map_singleton, aeventInterim?]

/-- C5 amended — transcript aggregation: the final transcript delivered on
completion is exactly the chunk texts joined by blank lines, in chunk order,
none dropped or reordered; and the partial-result event emitted after chunk
`i` carries `"📝 "` immediately followed by the entire accumulated
transcript of chunks `0..i` joined by blank lines (not a delta).  (The claim
as stated — the partial event carries *exactly* the accumulated join — fails
only because of the fixed `"📝 "` display marker the worker prepends; see
the counterexample.) -/
theorem transcript_aggregation (D : Nat) (Cs : Int)
    (segments : Nat → List String) (hC : Cs * 1000 ≠ 0) :
    (∀ i, i < numChunksOf D Cs →
      (interimTexts (conversionRun D Cs segments))[i + 1]? =
        some ("📝 " ++ joinStr "\n\n" ((List.range (i + 1)).map (chunkText segments)))) ∧
    completedTexts (conversionRun D Cs segments) =
      [joinStr "\n\n" ((List.range (numChunksOf D Cs)).map (chunkText segments))] := by
  constructor
  · intro i hi
    rw [conversion_interim_structure D Cs segments hC]
    simp only [List.getElem?_cons_succ, List.getElem?_map, List.getElem?_range hi]
    rfl
  · simp only [conversionRun, if_neg hC, completedTexts, List.filterMap_append,
      filterMap_flatMap_eq]
    simp [List.flatMap_def, transcriptUpTo, aeventCompleted?]

/-- Witness for `transcript_aggregation`: 125 s, 60-second chunks, three
chunks. -/
theorem transcript_aggregation_witness :
    ((60 : Int) * 1000 ≠ 0) ∧
    ((∀ i, i < numChunksOf 125000 60 →
      (interimTexts (conversionRun 125000 60 (fun j => [toString j])))[i + 1]? =
        some ("📝 " ++ joinStr "\n\n" ((List.range (i + 1)).map (chunkText (fun j => [toString j]))))) ∧
    completedTexts (conversionRun 125000 60 (fun j => [toString j])) =
      [joinStr "\n\n" ((List.range (numChunksOf 125000 60)).map (chunkText (fun j => [toString j])))]) :=
  ⟨by decide, transcript_aggregation 125000 60 (fun j => [toString j]) (by decide)⟩

/-- C5 counterexample — the partial-result event after chunk 0 does not
carry exactly the accumulated transcript: for a single-chunk run whose chunk
text is `"hello"`, the emitted payload is `"📝 hello"`, which differs from
`"hello"`. -/
theorem conversion_interim_has_marker :
    chunkText (fun _ => ["hello"]) 0 = "hello" ∧
    (interimTexts (conversionRun 1000 60 (fun _ => ["hello"])))[1]? =
      some "📝 hello" ∧
    ("📝 hello" : String) ≠ "hello" := by
  decide

/-! ## C6 — progress discipline -/

/-- `int((percent / 100) * 100) = percent` in exact arithmetic, so the value
emitted after chunk `i` is `⌊(i+1)·100 / N⌋`. -/
theorem transcriptionProgress_eq (N i : Nat) :
    transcriptionProgress N i = ((i + 1) * 100) / N := by
  unfold transcriptionProgress
  exact Nat.mul_div_cancel _ (by norm_num)

/-- The progress payloads of a (non-failing) transcription run. -/
theorem conversion_progress_structure (D : Nat) (Cs : Int)
    (segments : Nat → List String) (hC : Cs * 1000 ≠ 0) :
    progressValues (conversionRun D Cs segments) =
      [0, 0, 0] ++
        (List.range (numChunksOf D Cs)).map (transcriptionProgress (numChunksOf D Cs)) ++
        [100] := by
  simp only [conversionRun, if_neg hC, progressValues, List.filterMap_append,
    filterMap_flatMap_eq]
  simp [List.flatMap_def, flatten_map_singleton, aeventProgress?]

theorem transcriptionProgress_mono (N : Nat) :
    ∀ i j, i ≤ j → transcriptionProgress N i ≤ transcriptionProgress N j := by
  intro i j hij
  rw [transcriptionProgress_eq, transcriptionProgress_eq]
  exact Nat.div_le_div_right (Nat.mul_le_mul_right _ (by omega))

theorem transcriptionProgress_le_100 (N i : Nat) (hi : i < N) :
    transcriptionProgress N i ≤ 100 := by
  rw [transcriptionProgress_eq]
  have h1 : (i + 1) * 100 ≤ N * 100 := Nat.mul_le_mul_right _ (by omega)
  calc (i + 1) * 100 / N ≤ N * 100 / N := Nat.div_le_div_right h1
  _ = 100 := Nat.mul_div_cancel_left _ (by omega)

theorem transcriptionProgress_last (N : Nat) (hN : 0 < N) :
    transcriptionProgress N (N - 1) = 100 := by
  rw [transcriptionProgress_eq]
  have : (N - 1 + 1) = N := by omega
  rw [this]
  exact Nat.mul_div_cancel_left _ hN

theorem transcriptionProgress_lt_100 (N i : Nat) (hi : i + 1 < N) :
    transcriptionProgress N i < 100 := by
  rw [transcriptionProgress_eq]
  rw [Nat.div_lt_iff_lt_mul (by omega)]
  omega

/-- `Pairwise (· ≤ ·)` for the image of a monotone function on `range n`. -/
theorem pairwise_le_map_range (f : Nat → Nat)
    (hf : ∀ i j, i ≤ j → f i ≤ f j) (n : Nat) :
    ((List.range n).map f).Pairwise (· ≤ ·) := by
  exact List.Pairwise.map f (fun a b h => hf a b (Nat.le_of_lt h))
    (List.pairwise_lt_range n)

/-- The 100-count of the per-chunk progress values is exactly 1. -/
theorem transcription_loop_count_100 (N : Nat) (hN : 0 < N) :
    ((List.range N).map (transcriptionProgress N)).count 100 = 1 := by
  obtain ⟨M, rfl⟩ : ∃ M, N = M + 1 := ⟨N - 1, by omega⟩
  rw [List.range_succ, List.map_append, List.count_append]
  have h1 : ((List.range M).map (transcriptionProgress (M + 1))).count 100 = 0 := by
    rw [List.count_eq_zero]
    intro h
    obtain ⟨i, hi, hval⟩ := List.mem_map.mp h
    have := transcriptionProgress_lt_100 (M + 1) i (by
      simpa using List.mem_range.mp hi)
    omega
  have h2 : transcriptionProgress (M + 1) M = 100 := by
    have := transcriptionProgress_last (M + 1) (by omega)
    simpa using this
  simp [h1, h2]

/-- `filterMap` of an everywhere-`some` function is a `map`. -/
theorem filterMap_some_eq_map {α β : Type} (l : List α) (g : α → Option β)
    (f : α → β) (h : ∀ a, g a = some (f a)) : l.filterMap g = l.map f := by
  induction l with
  | nil => rfl
  | cons x xs ih => simp [List.filterMap_cons, h, ih]

/-- The progress payloads of a validly-selected Stage-1 run; they do not
depend on the handler oracle. -/
theorem stage1_progress_structure (handlers : String → Option (Except String String))
    (sel : List String) (h1 : sel ≠ []) (h2 : selectedIndices sel ≠ []) :
    sProgressValues (summarizationRun handlers sel).events =
      [5, 5, 10, 15] ++
        (List.range (filteredConfigs sel).length).map
          (fun i => stage1Progress (filteredConfigs sel).length (i + 1)) ++
        [100] := by
  simp only [summarizationRun, if_neg h1, if_neg h2, sProgressValues,
    List.filterMap_append, List.filterMap_map]
  rw [filterMap_some_eq_map _ (seventProgress? ∘ fun i =>
      SEvent.progress (stage1Progress (filteredConfigs sel).length (i + 1)))
    (fun i => stage1Progress (filteredConfigs sel).length (i + 1)) (fun a => rfl)]
  simp [seventProgress?]

theorem stage1Progress_mono (T : Nat) :
    ∀ i j, i ≤ j → stage1Progress T i ≤ stage1Progress T j := by
  intro i j hij
  unfold stage1Progress
  have : i * 75 / T ≤ j * 75 / T :=
    Nat.div_le_div_right (Nat.mul_le_mul_right _ hij)
  omega

theorem stage1Progress_le_95 (T i : Nat) : stage1Progress T i ≤ 95 := by
  unfold stage1Progress
  omega

/-- Loop events of a Stage-2 run where every selected insert method is
callable: one progress value per entry. -/
theorem stage2_loop_events (ins : String → Option (PyVal → Except String String))
    (g : Nat → Nat) :
    ∀ (l : List SummaryConfig) (k : Nat),
      (∀ cfg ∈ l, (ins cfg.insert_method).isSome = true) →
      (l.enumFrom k).flatMap
          (fun p => if (ins p.2.insert_method).isSome then
            [CEvent.progress (g (p.1 + 1))] else []) =
        (List.range l.length).map (fun i => CEvent.progress (g (k + i + 1)))
  | [], _, _ => by simp
  | c :: t, k, h => by
    have hc : (ins c.insert_method).isSome = true := h c (by simp)
    have ih := stage2_loop_events ins g t (k + 1) (fun cfg hm => h cfg (by simp [hm]))
    simp only [List.enumFrom_cons, List.flatMap_cons, hc, if_pos, List.length_cons,
      List.range_succ_eq_map, List.map_cons, List.map_map, ih,
      List.singleton_append]
    congr 1
    all_goals first
      | rfl
      | (apply List.map_congr_left; intro a ha;
         simp only [Function.comp_apply, Nat.succ_eq_add_one];
         congr 1; congr 1; omega)

/-- The progress payloads of a validly-selected Stage-2 run whose selected
insert methods are all callable. -/
theorem stage2_progress_structure (ins : String → Option (PyVal → Except String String))
    (text : String) (sel : List String) (h1 : sel ≠ []) (h2 : selectedIndices sel ≠ [])
    (hins : ∀ cfg ∈ filteredConfigs sel, (ins cfg.insert_method).isSome = true) :
    cProgressValues (classificationRun ins text sel).events =
      [0, 3, 8, 10] ++
        (List.range (filteredConfigs sel).length).map
          (fun i => stage2Progress (filteredConfigs sel).length (i + 1)) ++
        [100] := by
  simp only [classificationRun, if_neg h1, if_neg h2, cProgressValues,
    List.filterMap_append]
  rw [show (filteredConfigs sel).enum = (filteredConfigs sel).enumFrom 0 from rfl]
  rw [stage2_loop_events ins _ (filteredConfigs sel) 0 hins]
  simp only [List.filterMap_map]
  rw [filterMap_some_eq_map _ (ceventProgress? ∘ fun i =>
      CEvent.progress (stage2Progress (filteredConfigs sel).length (0 + i + 1)))
    (fun i => stage2Progress (filteredConfigs sel).length (0 + i + 1)) (fun a => rfl)]
  simp [ceventProgress?]

theorem stage2Progress_mono (T : Nat) :
    ∀ i j, i ≤ j → stage2Progress T i ≤ stage2Progress T j := by
  intro i j hij
  unfold stage2Progress
  have : i * 90 / T ≤ j * 90 / T :=
    Nat.div_le_div_right (Nat.mul_le_mul_right _ hij)
  omega

theorem stage2Progress_le_100 (T i : Nat) : stage2Progress T i ≤ 100 := by
  unfold stage2Progress
  omega

theorem stage2Progress_last (T : Nat) (hT : 0 < T) : stage2Progress T T = 100 := by
  unfold stage2Progress
  rw [Nat.mul_div_cancel_left _ hT]
  norm_num

theorem stage2Progress_lt_100 (T i : Nat) (hi : i < T) :
    stage2Progress T i < 100 := by
  unfold stage2Progress
  have : i * 90 / T < 90 := by
    rw [Nat.div_lt_iff_lt_mul (by omega)]
    have : i * 90 < T * 90 := (Nat.mul_lt_mul_right (by omega)).mpr hi
    omega
  omega

theorem numChunksOf_pos (D : Nat) (Cs : Int) (hD : 0 < D) (hCs : 0 < Cs) :
    0 < numChunksOf D Cs := by
  have hCpos : (0 : Int) < Cs * 1000 := by positivity
  obtain ⟨h1, h2⟩ := ceilDivInt_spec (D : Int) (Cs * 1000) hCpos
  have hq : 0 < ceilDivInt (D : Int) (Cs * 1000) := by
    by_contra h
    push_neg at h
    have : (Cs * 1000) * ceilDivInt (D : Int) (Cs * 1000) ≤ 0 :=
      mul_nonpos_of_nonneg_of_nonpos hCpos.le h
    have hD' : (0 : Int) < (D : Int) := by exact_mod_cast hD
    omega
  unfold numChunksOf
  omega

theorem filteredConfigs_ne_nil (sel : List String) (h : selectedIndices sel ≠ []) :
    filteredConfigs sel ≠ [] := by
  unfold filteredConfigs
  cases hsi : selectedIndices sel with
  | nil => exact absurd hsi h
  | cons i rest =>
    have hi : i < SUMMARY_CONFIGS.length := by
      have hmem : i ∈ selectedIndices sel := by rw [hsi]; simp
      unfold selectedIndices at hmem
      have := (List.mem_filter.mp hmem).1
      simpa using List.mem_range.mp this
    simp only [List.filterMap_cons, List.getElem?_eq_getElem hi]
    simp

theorem stage1Progress_ge_15 (T i : Nat) : 15 ≤ stage1Progress T i := by
  unfold stage1Progress
  exact le_min (Nat.le_add_right _ _) (by norm_num)

theorem stage2Progress_ge_10 (T i : Nat) : 10 ≤ stage2Progress T i := by
  unfold stage2Progress
  exact le_min (Nat.le_add_right _ _) (by norm_num)

/-- The 100-count of the Stage-2 per-entry progress values is exactly 1. -/
theorem stage2_loop_count_100 (T : Nat) (hT : 0 < T) :
    ((List.range T).map (fun i => stage2Progress T (i + 1))).count 100 = 1 := by
  obtain ⟨M, rfl⟩ : ∃ M, T = M + 1 := ⟨T - 1, by omega⟩
  rw [List.range_succ, List.map_append, List.count_append]
  have h1 : ((List.range M).map (fun i => stage2Progress (M + 1) (i + 1))).count 100 = 0 := by
    rw [List.count_eq_zero]
    intro h
    obtain ⟨i, hi, hval⟩ := List.mem_map.mp h
    have := stage2Progress_lt_100 (M + 1) (i + 1) (by
      simpa using List.mem_range.mp hi)
    omega
  have h2 : stage2Progress (M + 1) (M + 1) = 100 := stage2Progress_last (M + 1) (by omega)
  simp [h1, h2]

/-- C6 counterexample — `100` is **not** emitted exactly once: a completed
one-chunk transcription run emits it twice (once by the final loop
iteration's progress formula, once by the final explicit emit), and so does
a completed classification run whose insert methods are callable. -/
theorem progress_100_emitted_twice :
    (progressValues (conversionRun 1000 60 (fun _ => ["hi"]))).count 100 = 2 ∧
    (cProgressValues (classificationRun (fun _ => some (fun _ => Except.ok "p"))
      "" ["plan"]).events).count 100 = 2 := by
  constructor
  · decide
  · decide

/-- Shared shape of the three stages' progress traces: a fixed prefix, the
per-entry loop values, and the final explicit `100`. -/
theorem trace_shape_props (pre : List Nat) (f : Nat → Nat) (T : Nat)
    (hpre_le : ∀ p ∈ pre, p ≤ 100)
    (hpre_pair : pre.Pairwise (· ≤ ·))
    (hcross : ∀ p ∈ pre, ∀ i, i < T → p ≤ f i)
    (hmono : ∀ i j, i ≤ j → f i ≤ f j)
    (hle : ∀ i, i < T → f i ≤ 100) :
    (∀ p ∈ pre ++ (List.range T).map f ++ [100], p ≤ 100) ∧
    (pre ++ (List.range T).map f ++ [100]).Pairwise (· ≤ ·) ∧
    (pre ++ (List.range T).map f ++ [100]).getLast? = some 100 ∧
    (pre ++ (List.range T).map f ++ [100]).count 100 =
      pre.count 100 + ((List.range T).map f).count 100 + 1 := by
  have hmem_le : ∀ p ∈ pre ++ (List.range T).map f ++ [100], p ≤ 100 := by
    intro p hp
    rcases List.mem_append.mp hp with hp | hp
    · rcases List.mem_append.mp hp with hp | hp
      · exact hpre_le p hp
      · obtain ⟨i, hi, rfl⟩ := List.mem_map.mp hp
        exact hle i (List.mem_range.mp hi)
    · simp at hp
      omega
  refine ⟨hmem_le, ?_, ?_, ?_⟩
  · rw [List.pairwise_append]
    refine ⟨?_, ?_, ?_⟩
    · rw [List.pairwise_append]
      refine ⟨hpre_pair, pairwise_le_map_range f hmono T, ?_⟩
      intro a ha b hb
      obtain ⟨i, hi, rfl⟩ := List.mem_map.mp hb
      exact hcross a ha i (List.mem_range.mp hi)
    · simp
    · intro a ha b hb
      simp only [List.mem_singleton] at hb
      subst hb
      exact hmem_le a (List.mem_append_left _ ha)
  · have hassoc : pre ++ (List.range T).map f ++ [100] =
        (pre ++ (List.range T).map f) ++ [100] := rfl
    rw [hassoc, List.getLast?_concat]
  · rw [List.count_append, List.count_append]
    simp

/-- C6 amended — progress discipline: in every completed stage run the
progress values are integers bounded by 100, monotonically non-decreasing,
and the final value is 100, even when handlers fail (they are quantified
arbitrarily); `100` is emitted exactly once by the extraction stage, but
**twice** by the transcription and classification stages (the final loop
iteration's formula already yields 100 before the explicit final emit). -/
theorem progress_reporter_discipline
    (D : Nat) (Cs : Int) (segments : Nat → List String) (hD : 0 < D) (hCs : 0 < Cs)
    (handlers : String → Option (Except String String))
    (ins : String → Option (PyVal → Except String String)) (text : String)
    (sel sel2 : List String)
    (h1 : sel ≠ []) (h2 : selectedIndices sel ≠ [])
    (h3 : sel2 ≠ []) (h4 : selectedIndices sel2 ≠ [])
    (hins : ∀ cfg ∈ filteredConfigs sel2, (ins cfg.insert_method).isSome = true) :
    ((∀ p ∈ progressValues (conversionRun D Cs segments), p ≤ 100) ∧
     (progressValues (conversionRun D Cs segments)).Pairwise (· ≤ ·) ∧
     (progressValues (conversionRun D Cs segments)).getLast? = some 100 ∧
     (progressValues (conversionRun D Cs segments)).count 100 = 2) ∧
    ((∀ p ∈ sProgressValues (summarizationRun handlers sel).events, p ≤ 100) ∧
     (sProgressValues (summarizationRun handlers sel).events).Pairwise (· ≤ ·) ∧
     (sProgressValues (summarizationRun handlers sel).events).getLast? = some 100 ∧
     (sProgressValues (summarizationRun handlers sel).events).count 100 = 1) ∧
    ((∀ p ∈ cProgressValues (classificationRun ins text sel2).events, p ≤ 100) ∧
     (cProgressValues (classificationRun ins text sel2).events).Pairwise (· ≤ ·) ∧
     (cProgressValues (classificationRun ins text sel2).events).getLast? = some 100 ∧
     (cProgressValues (classificationRun ins text sel2).events).count 100 = 2) := by
  have hCne : Cs * 1000 ≠ 0 := by positivity
  have hN : 0 < numChunksOf D Cs := numChunksOf_pos D Cs hD hCs
  have hT2 : 0 < (filteredConfigs sel2).length :=
    List.length_pos.mpr (filteredConfigs_ne_nil sel2 h4)
  refine ⟨?_, ?_, ?_⟩
  · rw [conversion_progress_structure D Cs segments hCne]
    obtain ⟨ha, hb, hc, hd⟩ := trace_shape_props [0, 0, 0]
      (transcriptionProgress (numChunksOf D Cs)) (numChunksOf D Cs)
      (by intro p hp; simp at hp; omega)
      (by decide)
      (by intro p hp i hi; simp at hp; omega)
      (transcriptionProgress_mono (numChunksOf D Cs))
      (fun i hi => transcriptionProgress_le_100 _ i hi)
    refine ⟨ha, hb, hc, ?_⟩
    rw [hd, transcription_loop_count_100 (numChunksOf D Cs) hN]
    decide
  · rw [stage1_progress_structure handlers sel h1 h2]
    obtain ⟨ha, hb, hc, hd⟩ := trace_shape_props [5, 5, 10, 15]
      (fun i => stage1Progress (filteredConfigs sel).length (i + 1))
      (filteredConfigs sel).length
      (by intro p hp; simp at hp; omega)
      (by decide)
      (by
        intro p hp i hi
        have := stage1Progress_ge_15 (filteredConfigs sel).length (i + 1)
        simp at hp
        show p ≤ stage1Progress (filteredConfigs sel).length (i + 1)
        omega)
      (fun i j hij => stage1Progress_mono _ _ _ (by omega))
      (fun i _ => by
        have := stage1Progress_le_95 (filteredConfigs sel).length (i + 1)
        show stage1Progress (filteredConfigs sel).length (i + 1) ≤ 100
        omega)
    refine ⟨ha, hb, hc, ?_⟩
    rw [hd]
    have hz : ((List.range (filteredConfigs sel).length).map
        (fun i => stage1Progress (filteredConfigs sel).length (i + 1))).count 100 = 0 := by
      rw [List.count_eq_zero]
      intro h
      obtain ⟨i, hi, hval⟩ := List.mem_map.mp h
      have := stage1Progress_le_95 (filteredConfigs sel).length (i + 1)
      omega
    rw [hz]
    decide
  · rw [stage2_progress_structure ins text sel2 h3 h4 hins]
    obtain ⟨ha, hb, hc, hd⟩ := trace_shape_props [0, 3, 8, 10]
      (fun i => stage2Progress (filteredConfigs sel2).length (i + 1))
      (filteredConfigs sel2).length
      (by intro p hp; simp at hp; omega)
      (by decide)
      (by
        intro p hp i hi
        have := stage2Progress_ge_10 (filteredConfigs sel2).length (i + 1)
        simp at hp
        show p ≤ stage2Progress (filteredConfigs sel2).length (i + 1)
        omega)
      (fun i j hij => stage2Progress_mono _ _ _ (by omega))
      (fun i _ => stage2Progress_le_100 _ _)
    refine ⟨ha, hb, hc, ?_⟩
    rw [hd, stage2_loop_count_100 (filteredConfigs sel2).length hT2]
    decide

/-- Witness for `progress_reporter_discipline`: a 3-chunk transcription, an
extraction run over `plan` only and a classification run over `monitoring`
only, with every handler present. -/
theorem progress_reporter_discipline_witness :
    (0 < 125000 ∧ 0 < (60 : Int) ∧ (["plan"] : List String) ≠ [] ∧
      selectedIndices ["plan"] ≠ [] ∧ (["monitoring"] : List String) ≠ [] ∧
      selectedIndices ["monitoring"] ≠ [] ∧
      (∀ cfg ∈ filteredConfigs ["monitoring"],
        ((fun (_ : String) => some (fun (_ : PyVal) => (Except.ok "p" : Except String String)))
          cfg.insert_method).isSome = true)) ∧
    (progressValues (conversionRun 125000 60 (fun _ => ["x"]))).count 100 = 2 ∧
    (sProgressValues (summarizationRun (fun _ => some (Except.ok "x")) ["plan"]).events).count 100 = 1 ∧
    (cProgressValues (classificationRun
      (fun (_ : String) => some (fun (_ : PyVal) => (Except.ok "p" : Except String String)))
      "" ["monitoring"]).events).count 100 = 2 :=
  ⟨⟨by decide, by decide, by decide, by decide, by decide, by decide, by decide⟩,
   (progress_reporter_discipline 125000 60 (fun _ => ["x"]) (by decide) (by decide)
     (fun _ => some (Except.ok "x"))
     (fun (_ : String) => some (fun (_ : PyVal) => (Except.ok "p" : Except String String))) ""
     ["plan"] ["monitoring"] (by decide) (by decide) (by decide) (by decide)
     (by decide)).1.2.2.2,
   (progress_reporter_discipline 125000 60 (fun _ => ["x"]) (by decide) (by decide)
     (fun _ => some (Except.ok "x"))
     (fun (_ : String) => some (fun (_ : PyVal) => (Except.ok "p" : Except String String))) ""
     ["plan"] ["monitoring"] (by decide) (by decide) (by decide) (by decide)
     (by decide)).2.1.2.2.2,
   (progress_reporter_discipline 125000 60 (fun _ => ["x"]) (by decide) (by decide)
     (fun _ => some (Except.ok "x"))
     (fun (_ : String) => some (fun (_ : PyVal) => (Except.ok "p" : Except String String))) ""
     ["plan"] ["monitoring"] (by decide) (by decide) (by decide) (by decide)
     (by decide)).2.2.2.2.2⟩

/-! ## C2 — the plan / proposed-plan aliasing rule -/

/-- C2 — aliasing in Stage 1, given that the `run_sheet_proposedPlan` method
exists and behaves as `r`: (1) selecting only `plan` still triggers an
internal invocation of the proposed-plan handler; (2) the `plan` section is
the field-rewritten proposed-plan payload on success and the identical
`{"error": …}` payload on failure; (3) with both entries selected the
proposed-plan entry is processed first and `plan` carries the rewritten
(or identical-error) payload; (4) on success the cached payload is reused —
the handler is invoked exactly once across both entries — while (5) after a
failure nothing is cached and the forced invocation repeats; (6) the rewrite
maps the `"計画案::"` field-name prefix to `"計画::"` and `"計画案週::"` to
`"週間計画::"` (the spec's proposal::→plan::, proposal-weekly::→weekly-plan::). -/
theorem plan_aliasing (handlers : String → Option (Except String String))
    (r : Except String String)
    (h : handlers "run_sheet_proposedPlan" = some r) :
    "run_sheet_proposedPlan" ∈ (summarizationRun handlers ["plan"]).invoked ∧
    (summarizationRun handlers ["plan"]).sections =
      ["様式8　サービス等利用計画・障害児支援利用計画（Excel形式：46KB）.xlsx:\n" ++
        (match r with
         | .ok v => rewritePlanFields (pyStripS v)
         | .error e => jsonError e)] ∧
    (summarizationRun handlers ["proposed_plan", "plan"]).sections =
      ["様式4　サービス等利用計画案・障害児支援利用計画案（Excel形式：45KB）.xlsx:\n" ++
        (match r with
         | .ok v => pyStripS v
         | .error e => jsonError e),
       "様式8　サービス等利用計画・障害児支援利用計画（Excel形式：46KB）.xlsx:\n" ++
        (match r with
         | .ok v => rewritePlanFields (pyStripS v)
         | .error e => jsonError e)] ∧
    (∀ v, r = Except.ok v →
      (summarizationRun handlers ["proposed_plan", "plan"]).invoked =
        ["run_sheet_proposedPlan"]) ∧
    (∀ e, r = Except.error e →
      (summarizationRun handlers ["proposed_plan", "plan"]).invoked =
        ["run_sheet_proposedPlan", "run_sheet_proposedPlan"]) ∧
    rewritePlanFields "\x7b\"計画案::name\": \"X\", \"計画案週::mon\": \"Y\"\x7d" =
      "\x7b\"計画::name\": \"X\", \"週間計画::mon\": \"Y\"\x7d" := by
  have hA : (["plan"] : List String) ≠ [] := by decide
  have hB : selectedIndices ["plan"] ≠ [] := by decide
  have hC : (["proposed_plan", "plan"] : List String) ≠ [] := by decide
  have hD : selectedIndices ["proposed_plan", "plan"] ≠ [] := by decide
  have hfc1 : filteredConfigs ["plan"] =
      [⟨"様式8　サービス等利用計画・障害児支援利用計画（Excel形式：46KB）.xlsx",
        "run_sheet_plan", "insert_Plan_sheet", "サービス等利用計画"⟩] := by decide
  have hfc2 : filteredConfigs ["proposed_plan", "plan"] =
      [⟨"様式4　サービス等利用計画案・障害児支援利用計画案（Excel形式：45KB）.xlsx",
        "run_sheet_proposedPlan", "insert_proposedPlan_sheet", "サービス等利用計画案"⟩,
       ⟨"様式8　サービス等利用計画・障害児支援利用計画（Excel形式：46KB）.xlsx",
        "run_sheet_plan", "insert_Plan_sheet", "サービス等利用計画"⟩] := by decide
  cases r with
  | ok v =>
    refine ⟨?_, ?_, ?_, ?_, ?_, ?_⟩
    · simp [summarizationRun, if_neg hA, if_neg hB, hfc1, stage1Process, stage1Entry, h, SUMMARY_CONFIGS]
    · simp [summarizationRun, if_neg hA, if_neg hB, hfc1, stage1Process, stage1Entry, h, SUMMARY_CONFIGS]
    · simp [summarizationRun, if_neg hC, if_neg hD, hfc2, stage1Process, stage1Entry, h, SUMMARY_CONFIGS]
    · intro w hw
      injection hw with hw'
      subst hw'
      simp [summarizationRun, if_neg hC, if_neg hD, hfc2, stage1Process, stage1Entry, h, SUMMARY_CONFIGS]
    · intro e he
      exact absurd he (by simp)
    · decide
  | error e =>
    refine ⟨?_, ?_, ?_, ?_, ?_, ?_⟩
    · simp [summarizationRun, if_neg hA, if_neg hB, hfc1, stage1Process, stage1Entry, h, SUMMARY_CONFIGS]
    · simp [summarizationRun, if_neg hA, if_neg hB, hfc1, stage1Process, stage1Entry, h, SUMMARY_CONFIGS]
    · simp [summarizationRun, if_neg hC, if_neg hD, hfc2, stage1Process, stage1Entry, h, SUMMARY_CONFIGS]
    · intro w hw
      exact absurd hw (by simp)
    · intro e' he'
      injection he' with he''
      subst he''
      simp [summarizationRun, if_neg hC, if_neg hD, hfc2, stage1Process, stage1Entry, h, SUMMARY_CONFIGS]
    · decide

/-- Witness for `plan_aliasing` with a successful proposed-plan handler
returning the spec's scenario payload. -/
theorem plan_aliasing_witness :
    ((fun (n : String) =>
        if n = "run_sheet_proposedPlan"
        then some (Except.ok "\x7b\"計画案::name\": \"X\", \"計画案週::mon\": \"Y\"\x7d")
        else none : String → Option (Except String String)) "run_sheet_proposedPlan" =
      some (Except.ok "\x7b\"計画案::name\": \"X\", \"計画案週::mon\": \"Y\"\x7d")) ∧
    (summarizationRun (fun (n : String) =>
        if n = "run_sheet_proposedPlan"
        then some (Except.ok "\x7b\"計画案::name\": \"X\", \"計画案週::mon\": \"Y\"\x7d")
        else none : String → Option (Except String String)) ["plan"]).sections =
      ["様式8　サービス等利用計画・障害児支援利用計画（Excel形式：46KB）.xlsx:\n" ++
        "\x7b\"計画::name\": \"X\", \"週間計画::mon\": \"Y\"\x7d"] :=
  ⟨rfl,
   by
    have hsec := (plan_aliasing ((fun (n : String) =>
        if n = "run_sheet_proposedPlan"
        then some (Except.ok "\x7b\"計画案::name\": \"X\", \"計画案週::mon\": \"Y\"\x7d")
        else none : String → Option (Except String String)))
      (Except.ok "\x7b\"計画案::name\": \"X\", \"計画案週::mon\": \"Y\"\x7d") rfl).2.1
    rw [hsec]
    decide⟩

/-! ## C8 — selection validation -/

/-- C8 — selection validation: in both Stage 1 and Stage 2, an empty
selection, or one resolving to no catalog indices, fails the stage before
any handler is invoked: no handler invocation, no per-entry result, exactly
one failure signal, no completion signal; Stage 1 stops after its initial
progress 5, Stage 2 after its pre-validation progress values 0, 3, 8, 10
(its decode step precedes the validation but invokes no handler). -/
theorem selection_validation (handlers : String → Option (Except String String))
    (ins : String → Option (PyVal → Except String String)) (text : String)
    (sel : List String) (h : sel = [] ∨ selectedIndices sel = []) :
    (summarizationRun handlers sel).invoked = [] ∧
    (summarizationRun handlers sel).sections = [] ∧
    (sFailedTexts (summarizationRun handlers sel).events).length = 1 ∧
    sCompletedTexts (summarizationRun handlers sel).events = [] ∧
    sProgressValues (summarizationRun handlers sel).events = [5] ∧
    (classificationRun ins text sel).invoked = [] ∧
    (classificationRun ins text sel).results = [] ∧
    (cFailedTexts (classificationRun ins text sel).events).length = 1 ∧
    cCompletedRuns (classificationRun ins text sel).events = [] ∧
    cProgressValues (classificationRun ins text sel).events = [0, 3, 8, 10] := by
  by_cases hsel : sel = []
  · subst hsel
    simp [summarizationRun, classificationRun, sFailedTexts, sCompletedTexts,
      sProgressValues, cFailedTexts, cCompletedRuns, cProgressValues,
      seventFailed?, seventProgress?, seventCompleted?, ceventFailed?,
      ceventProgress?, ceventCompleted?]
  · have hidx : selectedIndices sel = [] := h.resolve_left hsel
    simp [summarizationRun, classificationRun, if_neg hsel, hidx, sFailedTexts,
      sCompletedTexts, sProgressValues, cFailedTexts, cCompletedRuns,
      cProgressValues, seventFailed?, seventProgress?, seventCompleted?,
      ceventFailed?, ceventProgress?, ceventCompleted?]

/-- Witness for `selection_validation` with a selection whose only group
identifier is unknown to `DOCUMENT_TYPE_MAPPING`. -/
theorem selection_validation_witness :
    ((["bogus"] : List String) = [] ∨ selectedIndices ["bogus"] = []) ∧
    ((summarizationRun (fun _ => none) ["bogus"]).invoked = [] ∧
     (summarizationRun (fun _ => none) ["bogus"]).sections = [] ∧
     (sFailedTexts (summarizationRun (fun _ => none) ["bogus"]).events).length = 1 ∧
     sCompletedTexts (summarizationRun (fun _ => none) ["bogus"]).events = [] ∧
     sProgressValues (summarizationRun (fun _ => none) ["bogus"]).events = [5] ∧
     (classificationRun (fun _ => none) "" ["bogus"]).invoked = [] ∧
     (classificationRun (fun _ => none) "" ["bogus"]).results = [] ∧
     (cFailedTexts (classificationRun (fun _ => none) "" ["bogus"]).events).length = 1 ∧
     cCompletedRuns (classificationRun (fun _ => none) "" ["bogus"]).events = [] ∧
     cProgressValues (classificationRun (fun _ => none) "" ["bogus"]).events =
       [0, 3, 8, 10]) :=
  ⟨Or.inr (by decide),
   selection_validation (fun _ => none) (fun _ => none) "" ["bogus"]
     (Or.inr (by decide))⟩

/-! ## C3 — per-entry fault isolation -/

theorem stage1Process_length (handlers : String → Option (Except String String)) :
    ∀ (cfgs : List SummaryConfig) (cache : Option String),
      (stage1Process handlers cache cfgs).1.length = cfgs.length
  | [], _ => rfl
  | cfg :: rest, cache => by
    simp [stage1Process, stage1Process_length handlers rest]

/-- Every processed entry yields a section rendered `key ++ ":\n" ++ content`,
whatever the cache state and the handlers. -/
theorem stage1Process_shape (handlers : String → Option (Except String String)) :
    ∀ (cfgs : List SummaryConfig) (cache : Option String) (j : Nat)
      (cfg : SummaryConfig), cfgs[j]? = some cfg →
      ∃ c, (stage1Process handlers cache cfgs).1[j]? =
        some (cfg.summary_key ++ ":\n" ++ c)
  | [], _, j, cfg, h => by simp at h
  | c0 :: rest, cache, 0, cfg, h => by
    simp only [List.getElem?_cons_zero, Option.some.injEq] at h
    subst h
    exact ⟨(stage1Entry handlers cache c0).1, by simp [stage1Process]⟩
  | c0 :: rest, cache, j + 1, cfg, h => by
    simp only [List.getElem?_cons_succ] at h
    obtain ⟨c, hc⟩ := stage1Process_shape handlers rest
      (stage1Entry handlers cache c0).2.1 j cfg h
    exact ⟨c, by simp [stage1Process, hc]⟩

/-- For an entry that is not the aliased `plan` entry, the recorded content
is determined by its own handler alone — an exception is caught and recorded
as the `{"error": …}` payload, regardless of the cache and of every other
entry. -/
theorem stage1Process_entry (handlers : String → Option (Except String String)) :
    ∀ (cfgs : List SummaryConfig) (cache : Option String) (j : Nat)
      (cfg : SummaryConfig), cfgs[j]? = some cfg →
      cfg.run_method ≠ "run_sheet_plan" →
      (stage1Process handlers cache cfgs).1[j]? =
        some (cfg.summary_key ++ ":\n" ++
          (match handlers cfg.run_method with
           | some (.ok v) => pyStripS v
           | some (.error e) => jsonError e
           | none => jsonError ("Method " ++ cfg.run_method ++ " not found")))
  | [], _, j, cfg, h, _ => by simp at h
  | c0 :: rest, cache, 0, cfg, h, hne => by
    simp only [List.getElem?_cons_zero, Option.some.injEq] at h
    subst h
    simp only [stage1Process, stage1Entry, if_neg hne, List.getElem?_cons_zero,
      Option.some.injEq]
    cases hh : handlers c0.run_method with
    | none => simp [hh]
    | some r => cases r <;> simp [hh]
  | c0 :: rest, cache, j + 1, cfg, h, hne => by
    simp only [List.getElem?_cons_succ] at h
    have := stage1Process_entry handlers rest
      (stage1Entry handlers cache c0).2.1 j cfg h hne
    simp [stage1Process, this]

theorem stage1_emits_100 (handlers : String → Option (Except String String))
    (sel : List String) (h1 : sel ≠ []) (h2 : selectedIndices sel ≠ []) :
    100 ∈ sProgressValues (summarizationRun handlers sel).events := by
  have hm : SEvent.progress 100 ∈ (summarizationRun handlers sel).events := by
    simp [summarizationRun, if_neg h1, if_neg h2]
  exact List.mem_filterMap.mpr ⟨SEvent.progress 100, hm, rfl⟩

theorem stage2_emits_100 (ins : String → Option (PyVal → Except String String))
    (text : String) (sel : List String) (h1 : sel ≠ []) (h2 : selectedIndices sel ≠ []) :
    100 ∈ cProgressValues (classificationRun ins text sel).events := by
  have hm : CEvent.progress 100 ∈ (classificationRun ins text sel).events := by
    simp [classificationRun, if_neg h1, if_neg h2]
  exact List.mem_filterMap.mpr ⟨CEvent.progress 100, hm, rfl⟩

theorem stage2Results_getElem (ins : String → Option (PyVal → Except String String))
    (extracted : List (String × PyVal)) (cfgs : List SummaryConfig) (j : Nat)
    (cfg : SummaryConfig) (h : cfgs[j]? = some cfg) :
    (stage2Results ins extracted cfgs)[j]? =
      some (cfg.summary_key, stage2Result ins extracted cfg) := by
  simp [stage2Results, List.getElem?_map, h]

/-- C3 — per-entry fault isolation in both stages.  Stage 1: if the handler
of selected entry `j` (an ordinary entry — the aliased `plan` entry never
invokes its own handler, see `plan_aliasing`) raises with message `m`, that
entry records exactly the `{"error": m}` payload, every selected entry still
yields a section, and the stage still emits 100.  Stage 2: if the insert
method of selected entry `j2` raises with message `m2` while every other
selected entry's insert method succeeds, entry `j2` records
`{"success": false, "error": m2}`, every other entry records a success
result, and the stage still emits 100. -/
theorem fault_isolation (handlers : String → Option (Except String String))
    (sel : List String) (h1 : sel ≠ []) (h2 : selectedIndices sel ≠ [])
    (m : String) (j : Nat) (cfgj : SummaryConfig)
    (hj : (filteredConfigs sel)[j]? = some cfgj)
    (hjplan : cfgj.run_method ≠ "run_sheet_plan")
    (herr : handlers cfgj.run_method = some (.error m))
    (ins : String → Option (PyVal → Except String String)) (text : String)
    (sel2 : List String) (h3 : sel2 ≠ []) (h4 : selectedIndices sel2 ≠ [])
    (m2 : String) (j2 : Nat) (cfgj2 : SummaryConfig)
    (hj2 : (filteredConfigs sel2)[j2]? = some cfgj2)
    (f : PyVal → Except String String)
    (hf : ins cfgj2.insert_method = some f) (hferr : ∀ p, f p = .error m2)
    (hok2 : ∀ (i : Nat) (cfgi : SummaryConfig), i ≠ j2 →
      (filteredConfigs sel2)[i]? = some cfgi →
      ∃ g, ins cfgi.insert_method = some g ∧ ∀ p, ∃ path, g p = .ok path) :
    (summarizationRun handlers sel).sections.length = (filteredConfigs sel).length ∧
    (summarizationRun handlers sel).sections[j]? =
      some (cfgj.summary_key ++ ":\n" ++ jsonError m) ∧
    (∀ (i : Nat) (cfgi : SummaryConfig), (filteredConfigs sel)[i]? = some cfgi →
      ∃ c, (summarizationRun handlers sel).sections[i]? =
        some (cfgi.summary_key ++ ":\n" ++ c)) ∧
    100 ∈ sProgressValues (summarizationRun handlers sel).events ∧
    (classificationRun ins text sel2).results.length = (filteredConfigs sel2).length ∧
    (classificationRun ins text sel2).results[j2]? =
      some (cfgj2.summary_key, .failure m2) ∧
    (∀ (i : Nat) (cfgi : SummaryConfig), i ≠ j2 →
      (filteredConfigs sel2)[i]? = some cfgi →
      ∃ path hd, (classificationRun ins text sel2).results[i]? =
        some (cfgi.summary_key, .success path hd)) ∧
    100 ∈ cProgressValues (classificationRun ins text sel2).events := by
  have hsec : (summarizationRun handlers sel).sections =
      (stage1Process handlers none (filteredConfigs sel)).1 := by
    simp [summarizationRun, if_neg h1, if_neg h2]
  have hres : (classificationRun ins text sel2).results =
      stage2Results ins (extractSeparateTexts text) (filteredConfigs sel2) := by
    simp [classificationRun, if_neg h3, if_neg h4]
  refine ⟨?_, ?_, ?_, ?_, ?_, ?_, ?_, ?_⟩
  · rw [hsec, stage1Process_length]
  · rw [hsec, stage1Process_entry handlers (filteredConfigs sel) none j cfgj hj hjplan,
      herr]
  · intro i cfgi hi
    rw [hsec]
    exact stage1Process_shape handlers (filteredConfigs sel) none i cfgi hi
  · exact stage1_emits_100 handlers sel h1 h2
  · rw [hres]
    simp [stage2Results]
  · rw [hres, stage2Results_getElem ins _ _ j2 cfgj2 hj2]
    simp [stage2Result, hf, hferr]
  · intro i cfgi hi hgi
    obtain ⟨g, hg, hgok⟩ := hok2 i cfgi hi hgi
    obtain ⟨path, hpath⟩ := hgok (classifyPayload (extractSeparateTexts text) cfgi.summary_key).1
    refine ⟨path, (classifyPayload (extractSeparateTexts text) cfgi.summary_key).2, ?_⟩
    rw [hres, stage2Results_getElem ins _ _ i cfgi hgi]
    simp [stage2Result, hg, hpath]
  · exact stage2_emits_100 ins text sel2 h3 h4

/-- Witness for `fault_isolation`: Stage 1 over `monitoring` + `assessment`
with the monitoring handler raising, Stage 2 over the same pair with the
monitoring insert method raising. -/
theorem fault_isolation_witness :
    ((["monitoring", "assessment"] : List String) ≠ [] ∧
     selectedIndices ["monitoring", "assessment"] ≠ [] ∧
     (filteredConfigs ["monitoring", "assessment"])[0]? =
       some ⟨"様式11　モニタリング報告書（Excel形式：45KB）.xlsx",
         "run_sheet_monitor", "insert_monitor_sheet", "モニタリング報告書"⟩) ∧
    (summarizationRun
        (fun n => if n = "run_sheet_monitor" then some (.error "boom")
          else some (.ok "fine")) ["monitoring", "assessment"]).sections[0]? =
      some ("様式11　モニタリング報告書（Excel形式：45KB）.xlsx:\n" ++ jsonError "boom") ∧
    (classificationRun
        (fun n => if n = "insert_monitor_sheet"
          then some (fun _ => (.error "ins-boom" : Except String String))
          else some (fun _ => (.ok "saved" : Except String String)))
        "" ["monitoring", "assessment"]).results[0]? =
      some ("様式11　モニタリング報告書（Excel形式：45KB）.xlsx", .failure "ins-boom") := by
  have hmain := fault_isolation
    (fun n => if n = "run_sheet_monitor" then some (.error "boom") else some (.ok "fine"))
    ["monitoring", "assessment"] (by decide) (by decide)
    "boom" 0
    ⟨"様式11　モニタリング報告書（Excel形式：45KB）.xlsx",
      "run_sheet_monitor", "insert_monitor_sheet", "モニタリング報告書"⟩
    (by decide) (by decide) rfl
    (fun n => if n = "insert_monitor_sheet"
      then some (fun _ => (.error "ins-boom" : Except String String))
      else some (fun _ => (.ok "saved" : Except String String)))
    "" ["monitoring", "assessment"] (by decide) (by decide)
    "ins-boom" 0
    ⟨"様式11　モニタリング報告書（Excel形式：45KB）.xlsx",
      "run_sheet_monitor", "insert_monitor_sheet", "モニタリング報告書"⟩
    (by decide)
    (fun _ => (.error "ins-boom" : Except String String)) rfl (fun _ => rfl)
    (by
      intro i cfgi hi hgi
      refine ⟨(fun _ => (.ok "saved" : Except String String)), ?_, fun p => ⟨"saved", rfl⟩⟩
      have hne : cfgi.insert_method ≠ "insert_monitor_sheet" := by
        rcases eq_or_ne i 1 with h | h
        · subst h
          have : cfgi = ⟨"様式2、3　アセスメント票（訪問票兼生活支援アセスメント票）（Excel形式：44KB）.xlsx",
              "run_sheet_assessment", "insert_assessment_sheet", "アセスメント票"⟩ := by
            have hx : (filteredConfigs ["monitoring", "assessment"])[1]? =
                some ⟨"様式2、3　アセスメント票（訪問票兼生活支援アセスメント票）（Excel形式：44KB）.xlsx",
                  "run_sheet_assessment", "insert_assessment_sheet", "アセスメント票"⟩ := by decide
            rw [hx] at hgi
            exact (Option.some.injEq _ _ ▸ hgi).symm
          rw [this]
          decide
        · exfalso
          have hlen : (filteredConfigs ["monitoring", "assessment"]).length = 2 := by decide
          obtain ⟨hlt, -⟩ := List.getElem?_eq_some_iff.mp hgi
          omega
      simp [hne])
  exact ⟨⟨by decide, by decide, by decide⟩, hmain.2.1, hmain.2.2.2.2.2.1⟩

/-! ## C1 / C10 — the SectionCodec round trip

String-level facts about `splitSep`, `splitNl`, the strips, and the block
decoder, leading to the round-trip theorem for `encodeSections` /
`extractSeparateTexts` and the decode-normalization theorem. -/

theorem splitSepGo_cons (c : Char) (rest : List Char) (k : Nat) (cur : List Char) :
    splitSepGo (c :: rest) k cur =
      if c = '-' then
        (if k = 31 then cur :: splitSepGo rest 0 [] else splitSepGo rest (k + 1) cur)
      else splitSepGo rest 0 (cur ++ List.replicate k '-' ++ [c]) := rfl

theorem hasDash32Go_cons (c : Char) (rest : List Char) (k : Nat) :
    hasDash32Go (c :: rest) k =
      if c = '-' then (if k = 31 then true else hasDash32Go rest (k + 1))
      else hasDash32Go rest 0 := rfl

theorem splitSepGo_no32 :
    ∀ (s : List Char) (k : Nat) (cur : List Char), hasDash32Go s k = false →
      splitSepGo s k cur = [cur ++ List.replicate k '-' ++ s] := by
  intro s
  induction s with
  | nil => intro k cur _; simp [splitSepGo]
  | cons c rest ih =>
    intro k cur h
    rw [hasDash32Go_cons] at h
    rw [splitSepGo_cons]
    by_cases hc : c = '-'
    · rw [if_pos hc] at h ⊢
      have hk : ¬ k = 31 := by
        intro hk
        rw [if_pos hk] at h
        exact absurd h (by decide)
      rw [if_neg hk] at h ⊢
      rw [ih (k + 1) cur h, hc]
      simp [List.replicate_succ']
    · rw [if_neg hc] at h ⊢
      rw [ih 0 _ h]
      simp

theorem splitSepGo_replicate :
    ∀ (m k : Nat) (cur r : List Char), k + m = 32 → 1 ≤ m →
      splitSepGo (List.replicate m '-' ++ r) k cur = cur :: splitSepGo r 0 [] := by
  intro m
  induction m with
  | zero => omega
  | succ n ih =>
    intro k cur r hk _
    rw [List.replicate_succ, List.cons_append, splitSepGo_cons, if_pos rfl]
    by_cases hn : n = 0
    · subst hn
      have hk31 : k = 31 := by omega
      rw [if_pos hk31]
      simp [splitSepGo]
    · have hk31 : ¬ k = 31 := by omega
      rw [if_neg hk31]
      exact ih (k + 1) cur r (by omega) (by omega)

theorem hasDash32Go_append_notdash :
    ∀ (x : List Char) (k : Nat) (c : Char), c ≠ '-' →
      hasDash32Go (x ++ [c]) k = hasDash32Go x k := by
  intro x
  induction x with
  | nil =>
    intro k c hc
    rw [List.nil_append, hasDash32Go_cons, if_neg hc]
    rfl
  | cons d rest ih =>
    intro k c hc
    rw [List.cons_append, hasDash32Go_cons, hasDash32Go_cons]
    by_cases hd : d = '-'
    · rw [if_pos hd, if_pos hd]
      by_cases hk : k = 31
      · rw [if_pos hk, if_pos hk]
      · rw [if_neg hk, if_neg hk, ih _ _ hc]
    · rw [if_neg hd, if_neg hd, ih _ _ hc]

/-- Scanning a dash-free non-empty chunk resets the scanner state. -/
theorem hasDash32Go_append_reset :
    ∀ (x : List Char) (k : Nat) (r : List Char), '-' ∉ x → x ≠ [] →
      hasDash32Go (x ++ r) k = hasDash32Go r 0 := by
  intro x
  induction x with
  | nil => intro k r _ hne; exact absurd rfl hne
  | cons c rest ih =>
    intro k r hmem hne
    have hc : ¬ c = '-' := fun h => hmem (by simp [h])
    rw [List.cons_append, hasDash32Go_cons, if_neg hc]
    cases rest with
    | nil => rfl
    | cons d rest' =>
      have hmem' : '-' ∉ d :: rest' := fun h => hmem (by simp [h])
      exact ih 0 r hmem' (by simp)

theorem splitSepGo_append_nl :
    ∀ (x : List Char) (k : Nat) (cur r : List Char), hasDash32Go x k = false →
      x.getLast? = some '\n' →
      splitSepGo (x ++ dash32 ++ r) k cur =
        (cur ++ List.replicate k '-' ++ x) :: splitSepGo r 0 [] := by
  intro x
  induction x with
  | nil => intro _ _ _ _ h; simp at h
  | cons c rest ih =>
    intro k cur r hno hlast
    rw [hasDash32Go_cons] at hno
    cases rest with
    | nil =>
      simp only [List.getLast?_singleton, Option.some.injEq] at hlast
      subst hlast
      have hnl : ¬ (('\n' : Char) = '-') := by decide
      rw [show (['\n'] ++ dash32 ++ r : List Char) = '\n' :: (dash32 ++ r) from rfl]
      rw [splitSepGo_cons, if_neg hnl]
      rw [show ((dash32 ++ r : List Char)) = List.replicate 32 '-' ++ r from rfl,
        splitSepGo_replicate 32 0 _ r (by omega) (by omega)]
    | cons d rest' =>
      have hlast' : (d :: rest').getLast? = some '\n' := by
        rwa [List.getLast?_cons_cons] at hlast
      have hshape : (c :: d :: rest') ++ dash32 ++ r =
          c :: ((d :: rest') ++ dash32 ++ r) := by simp
      rw [hshape, splitSepGo_cons]
      by_cases hc : c = '-'
      · rw [if_pos hc] at hno ⊢
        have hk : ¬ k = 31 := by
          intro hk
          rw [if_pos hk] at hno
          exact absurd hno (by decide)
        rw [if_neg hk] at hno ⊢
        rw [ih (k + 1) cur r hno hlast', hc]
        simp [List.replicate_succ']
      · rw [if_neg hc] at hno ⊢
        rw [ih 0 _ r hno hlast']
        simp

theorem splitSepGo_cons_newline (J : List Char) (cur : List Char) :
    splitSepGo ('\n' :: J) 0 cur = splitSepGo J 0 (cur ++ ['\n']) := by
  rw [splitSepGo_cons, if_neg (by decide : ¬ (('\n' : Char) = '-'))]
  simp

theorem hasDash32_concat_nl (b : List Char) (hb : hasDash32 b = false) :
    hasDash32Go (b ++ ['\n']) 0 = false := by
  rw [hasDash32Go_append_notdash b 0 '\n' (by decide)]
  exact hb

/-- Splitting one encoded separator boundary. -/
theorem splitSepGo_joinSep_step (b J cur : List Char) (hb : hasDash32 b = false) :
    splitSepGo (b ++ ('\n' :: dash32 ++ ['\n']) ++ J) 0 cur =
      (cur ++ b ++ ['\n']) :: splitSepGo J 0 ['\n'] := by
  have hshape : b ++ ('\n' :: dash32 ++ ['\n']) ++ J =
      (b ++ ['\n']) ++ dash32 ++ ('\n' :: J) := by simp
  rw [hshape, splitSepGo_append_nl (b ++ ['\n']) 0 cur ('\n' :: J)
    (hasDash32_concat_nl b hb) (List.getLast?_concat _),
    splitSepGo_cons_newline]
  simp

/-- Splitting the encoded blob of the non-first blocks, with the leading
newline of the separator carried in the accumulator. -/
theorem splitSepGo_joinSep_mid :
    ∀ (bs : List (List Char)) (b : List Char), hasDash32 b = false →
      (∀ x ∈ bs, hasDash32 x = false) →
      splitSepGo (joinSep ('\n' :: dash32 ++ ['\n']) (b :: bs)) 0 ['\n'] =
        midLast (b :: bs) := by
  intro bs
  induction bs with
  | nil =>
    intro b hb _
    rw [show joinSep ('\n' :: dash32 ++ ['\n']) [b] = b from rfl,
      splitSepGo_no32 b 0 ['\n'] hb]
    rfl
  | cons b2 rest ih =>
    intro b hb hbs
    rw [show joinSep ('\n' :: dash32 ++ ['\n']) (b :: b2 :: rest) =
      b ++ ('\n' :: dash32 ++ ['\n']) ++ joinSep ('\n' :: dash32 ++ ['\n']) (b2 :: rest)
      from rfl]
    rw [splitSepGo_joinSep_step b _ ['\n'] hb]
    rw [ih b2 (hbs b2 (by simp)) (fun x hx => hbs x (by simp [hx]))]
    rfl

/-- Python's split of an encoded blob on the bare 32-dash line: the first
block keeps its trailing newline, later blocks keep the newlines of the
separator that flanked them. -/
theorem splitSep_joinSep (b : List Char) (bs : List (List Char))
    (hb : hasDash32 b = false) (hbs : ∀ x ∈ bs, hasDash32 x = false) :
    splitSep (joinSep ('\n' :: dash32 ++ ['\n']) (b :: bs)) =
      match bs with
      | [] => [b]
      | _ :: _ => (b ++ ['\n']) :: midLast bs := by
  cases bs with
  | nil =>
    rw [show joinSep ('\n' :: dash32 ++ ['\n']) [b] = b from rfl]
    unfold splitSep
    rw [splitSepGo_no32 b 0 [] hb]
    rfl
  | cons b2 rest =>
    unfold splitSep
    rw [show joinSep ('\n' :: dash32 ++ ['\n']) (b :: b2 :: rest) =
      b ++ ('\n' :: dash32 ++ ['\n']) ++ joinSep ('\n' :: dash32 ++ ['\n']) (b2 :: rest)
      from rfl]
    rw [splitSepGo_joinSep_step b _ [] hb]
    rw [splitSepGo_joinSep_mid rest b2 (hbs b2 (by simp))
      (fun x hx => hbs x (by simp [hx]))]
    simp

theorem splitNl_cons (c : Char) (rest : List Char) :
    splitNl (c :: rest) =
      if c = '\n' then [] :: splitNl rest
      else
        match splitNl rest with
        | [] => [[c]]
        | p :: ps => (c :: p) :: ps := rfl

theorem splitNl_ne_nil : ∀ (s : List Char), splitNl s ≠ [] := by
  intro s
  cases s with
  | nil => simp [splitNl]
  | cons c rest =>
    rw [splitNl_cons]
    by_cases hc : c = '\n'
    · simp [hc]
    · rw [if_neg hc]
      cases splitNl rest <;> simp

theorem splitNl_append_cons (xs ys : List Char) :
    splitNl (xs ++ '\n' :: ys) = splitNl xs ++ splitNl ys := by
  induction xs with
  | nil => simp [splitNl]
  | cons c xs' ih =>
    rw [List.cons_append, splitNl_cons, splitNl_cons]
    by_cases hc : c = '\n'
    · rw [if_pos hc, if_pos hc, ih]
      rfl
    · rw [if_neg hc, if_neg hc, ih]
      cases h : splitNl xs' with
      | nil => exact absurd h (splitNl_ne_nil xs')
      | cons p ps => simp

theorem splitNl_no_nl : ∀ (x : List Char), '\n' ∉ x → splitNl x = [x] := by
  intro x
  induction x with
  | nil => intro _; rfl
  | cons c rest ih =>
    intro h
    have hc : ¬ c = '\n' := fun hh => h (by simp [hh])
    have hrest : '\n' ∉ rest := fun hh => h (by simp [hh])
    rw [splitNl_cons, if_neg hc, ih hrest]

theorem splitNl_mem_no_nl : ∀ (s : List Char), ∀ p ∈ splitNl s, '\n' ∉ p := by
  intro s
  induction s with
  | nil =>
    intro p hp
    simp [splitNl] at hp
    simp [hp]
  | cons c rest ih =>
    intro p hp
    rw [splitNl_cons] at hp
    by_cases hc : c = '\n'
    · rw [if_pos hc] at hp
      rcases List.mem_cons.mp hp with h | h
      · simp [h]
      · exact ih p h
    · rw [if_neg hc] at hp
      cases h : splitNl rest with
      | nil => exact absurd h (splitNl_ne_nil rest)
      | cons q qs =>
        rw [h] at hp
        rcases List.mem_cons.mp hp with hh | hh
        · subst hh
          intro hmem
          rcases List.mem_cons.mp hmem with h1 | h1
          · exact hc h1.symm
          · exact ih q (by rw [h]; simp) h1
        · exact ih p (by rw [h]; simp [hh])

theorem splitNl_joinSep : ∀ (xs : List (List Char)) (x : List Char),
    '\n' ∉ x → (∀ l ∈ xs, '\n' ∉ l) →
    splitNl (joinSep ['\n'] (x :: xs)) = x :: xs := by
  intro xs
  induction xs with
  | nil => intro x hx _; exact splitNl_no_nl x hx
  | cons y rest ih =>
    intro x hx hxs
    rw [show joinSep ['\n'] (x :: y :: rest) =
      x ++ '\n' :: joinSep ['\n'] (y :: rest) by simp [joinSep]]
    rw [splitNl_append_cons, splitNl_no_nl x hx,
      ih y (hxs y (by simp)) (fun l hl => hxs l (by simp [hl]))]
    rfl

theorem pyRStrip_nil : pyRStrip [] = [] := rfl

theorem pyRStrip_cons (c : Char) (t : List Char) :
    pyRStrip (c :: t) =
      if pyRStrip t = [] then (if pySpace c then [] else [c])
      else c :: pyRStrip t := by
  unfold pyRStrip
  rw [List.reverse_cons, List.dropWhile_append]
  by_cases h : (List.dropWhile pySpace t.reverse).isEmpty
  · rw [if_pos h]
    have h' : t.reverse.dropWhile pySpace = [] := by
      rwa [List.isEmpty_iff] at h
    rw [if_pos (by rw [h']; rfl)]
    by_cases hc : pySpace c
    · simp [List.dropWhile, hc]
    · simp [List.dropWhile, hc]
  · rw [if_neg h]
    have h' : ¬ t.reverse.dropWhile pySpace = [] := by
      rwa [List.isEmpty_iff] at h
    rw [if_neg (by
      intro hh
      exact h' (by
        have := congrArg List.reverse hh
        simpa using this))]
    simp

theorem pyRStrip_idem (l : List Char) : pyRStrip (pyRStrip l) = pyRStrip l := by
  unfold pyRStrip
  rw [List.reverse_reverse, List.dropWhile_idempotent]

theorem pyLStrip_cons (c : Char) (t : List Char) :
    pyLStrip (c :: t) = if pySpace c then pyLStrip t else c :: t := by
  unfold pyLStrip
  by_cases h : pySpace c <;> simp [List.dropWhile, h]

theorem mem_pyRStrip (a : Char) (l : List Char) (h : a ∈ pyRStrip l) : a ∈ l := by
  unfold pyRStrip at h
  rw [List.mem_reverse] at h
  have := (List.dropWhile_sublist (l := l.reverse) (p := pySpace)).mem h
  rwa [List.mem_reverse] at this

theorem pyRStrip_eq_nil_iff (l : List Char) :
    pyRStrip l = [] ↔ ∀ c ∈ l, pySpace c = true := by
  unfold pyRStrip
  rw [List.reverse_eq_nil_iff, List.dropWhile_eq_nil_iff]
  constructor
  · intro h c hc
    exact h c (List.mem_reverse.mpr hc)
  · intro h c hc
    exact h c (List.mem_reverse.mp hc)

theorem pyStrip_eq_nil_iff (s : List Char) :
    pyStrip s = [] ↔ ∀ c ∈ s, pySpace c = true := by
  unfold pyStrip
  rw [pyRStrip_eq_nil_iff]
  constructor
  · intro h c hc
    by_cases hcs : pySpace c
    · exact hcs
    · exact h c (by
        unfold pyLStrip
        have hsplit := List.takeWhile_append_dropWhile (p := pySpace) (l := s)
        by_contra
        have hmem : c ∈ s.takeWhile pySpace ∨ c ∈ s.dropWhile pySpace := by
          rw [← List.mem_append, hsplit]
          exact hc
        rcases hmem with hm | hm
        · exact absurd (List.mem_takeWhile_imp hm) hcs
        · exact absurd (h c hm) hcs)
  · intro h c hc
    exact h c ((List.dropWhile_sublist (l := s) (p := pySpace)).mem hc)

theorem pyRStrip_concat_nonspace (x : List Char) (c : Char)
    (hc : pySpace c = false) : pyRStrip (x ++ [c]) = x ++ [c] := by
  unfold pyRStrip
  rw [List.reverse_append]
  simp only [List.reverse_cons, List.reverse_nil, List.nil_append,
    List.cons_append, List.dropWhile]
  rw [hc]
  simp

theorem pyStrip_ne_nil_of_mem (s : List Char) (c : Char) (hc : c ∈ s)
    (hcs : pySpace c = false) : pyStrip s ≠ [] := by
  intro h
  have := (pyStrip_eq_nil_iff s).mp h c hc
  rw [hcs] at this
  exact absurd this (by decide)

theorem mem_pyRStrip_of_nonspace (c : Char) (l : List Char) (hc : c ∈ l)
    (hs : pySpace c = false) : c ∈ pyRStrip l := by
  unfold pyRStrip
  rw [List.mem_reverse]
  have hrev : c ∈ l.reverse := List.mem_reverse.mpr hc
  have hsplit := List.takeWhile_append_dropWhile (p := pySpace) (l := l.reverse)
  have hor : c ∈ l.reverse.takeWhile pySpace ∨ c ∈ l.reverse.dropWhile pySpace := by
    rw [← List.mem_append, hsplit]
    exact hrev
  rcases hor with h | h
  · exact absurd (List.mem_takeWhile_imp h) (by simp [hs])
  · exact h

/-- Every line produced by the decoder's normalization pass
(`[line.rstrip() for line in section.split("\n") if line.strip()]`) is
newline-free, `rstrip`-fixed and not whitespace-only. -/
theorem normLines_mem_wf (blk : List Char) :
    ∀ p ∈ normLines blk, '\n' ∉ p ∧ pyRStrip p = p ∧ pyStrip p ≠ [] := by
  intro p hp
  unfold normLines at hp
  rcases List.mem_map.mp hp with ⟨l, hl, rfl⟩
  rcases List.mem_filter.mp hl with ⟨hlmem, hlcond⟩
  have hlstrip : pyStrip l ≠ [] := by simpa using hlcond
  refine ⟨?_, pyRStrip_idem l, ?_⟩
  · intro hmem
    exact splitNl_mem_no_nl blk l hlmem (mem_pyRStrip '\n' l hmem)
  · have hex : ∃ c ∈ l, pySpace c = false := by
      by_contra hno
      push_neg at hno
      exact hlstrip ((pyStrip_eq_nil_iff l).mpr (by
        intro c hc
        have := hno c hc
        cases h : pySpace c
        · exact absurd h this
        · rfl))
    rcases hex with ⟨c, hcl, hcs⟩
    exact pyStrip_ne_nil_of_mem (pyRStrip l) c (mem_pyRStrip_of_nonspace c l hcl hcs) hcs

/-- Re-joining already-normalized lines and normalizing again is the
identity. -/
theorem normLines_join_of_wf : ∀ (xs : List (List Char)),
    (∀ x ∈ xs, '\n' ∉ x) → (∀ x ∈ xs, pyRStrip x = x) → (∀ x ∈ xs, pyStrip x ≠ []) →
    normLines (joinSep ['\n'] xs) = xs := by
  intro xs hnl hrs hst
  cases xs with
  | nil =>
    show normLines (joinSep ['\n'] []) = []
    have h0 : pyStrip ([] : List Char) = [] := rfl
    simp [normLines, joinSep, splitNl, h0]
  | cons x rest =>
    unfold normLines
    rw [splitNl_joinSep rest x (hnl x (by simp)) (fun l hl => hnl l (by simp [hl]))]
    rw [List.filter_eq_self.mpr (by
      intro a ha
      simpa using hst a ha)]
    have hmap : (x :: rest).map pyRStrip = (x :: rest).map id :=
      List.map_congr_left (by
        intro a ha
        simp [hrs a ha])
    rw [hmap, List.map_id]

theorem blockToEntry_congr (a b : List Char) (h : normLines a = normLines b) :
    blockToEntry a = blockToEntry b := by
  unfold blockToEntry
  rw [h]

theorem normLines_cons_nl (x : List Char) : normLines ('\n' :: x) = normLines x := by
  unfold normLines
  rw [splitNl_cons, if_pos rfl]
  have h0 : pyStrip ([] : List Char) = [] := rfl
  simp [List.filter_cons, h0]

theorem normLines_concat_nl (x : List Char) : normLines (x ++ ['\n']) = normLines x := by
  unfold normLines
  rw [show x ++ ['\n'] = x ++ '\n' :: [] from rfl, splitNl_append_cons]
  have h0 : pyStrip ([] : List Char) = [] := rfl
  simp [List.filter_append, List.filter_cons, h0, splitNl]

theorem blockToEntry_cons_nl (x : List Char) :
    blockToEntry ('\n' :: x) = blockToEntry x :=
  blockToEntry_congr _ _ (normLines_cons_nl x)

theorem blockToEntry_concat_nl (x : List Char) :
    blockToEntry (x ++ ['\n']) = blockToEntry x :=
  blockToEntry_congr _ _ (normLines_concat_nl x)

theorem midLast_map_blockToEntry : ∀ (bs : List (List Char)),
    (midLast bs).map blockToEntry = bs.map blockToEntry := by
  intro bs
  induction bs with
  | nil => rfl
  | cons b rest ih =>
    cases rest with
    | nil =>
      show [blockToEntry ('\n' :: b)] = [blockToEntry b]
      rw [blockToEntry_cons_nl]
    | cons c rest' =>
      show blockToEntry ('\n' :: (b ++ ['\n'])) :: (midLast (c :: rest')).map blockToEntry
        = blockToEntry b :: (c :: rest').map blockToEntry
      rw [blockToEntry_cons_nl, blockToEntry_concat_nl, ih]

/-- C10: `_extract_separate_texts` normalizes each block before parsing: it
discards every blank or whitespace-only line and right-trims every remaining
line, so decoding depends only on the normalized lines (first conjunct), and
a raw-text payload with interior blank lines and trailing whitespace decodes
to a `"content"` value with the blank lines removed and the line-trailing
whitespace stripped (second conjunct), which differs from the original text
(third conjunct). -/
theorem decode_normalizes :
    (∀ blk : List Char, blockToEntry (joinSep ['\n'] (normLines blk)) = blockToEntry blk)
    ∧ extractSeparateTexts "様式11　モニタリング報告書（Excel形式：45KB）.xlsx:\nline1  \n\nline2"
        = [("様式11　モニタリング報告書（Excel形式：45KB）.xlsx",
            PyVal.obj [("content", PyVal.str "line1\nline2")])]
    ∧ ("line1\nline2" : String) ≠ "line1  \n\nline2" := by
  refine ⟨?_, by rfl, by decide⟩
  intro blk
  exact blockToEntry_congr _ _ (normLines_join_of_wf (normLines blk)
    (fun x hx => (normLines_mem_wf blk x hx).1)
    (fun x hx => (normLines_mem_wf blk x hx).2.1)
    (fun x hx => (normLines_mem_wf blk x hx).2.2))

/-- Every catalog key is newline-free, dash-free and `strip`-fixed. -/
theorem summary_keys_wf :
    ∀ k ∈ SUMMARY_KEYS, '\n' ∉ k.data ∧ '-' ∉ k.data ∧ pyStrip k.data = k.data := by
  decide

theorem renderSection_data (k p : String) :
    (renderSection (k, p)).data = (k.data ++ [':']) ++ '\n' :: p.data := by
  show (k ++ ":\n" ++ p).data = _
  rw [String.data_append, String.data_append,
    show (":\n" : String).data = [':', '\n'] from rfl]
  simp

theorem normLines_render (k p : String) (hnl : '\n' ∉ k.data) :
    normLines ((k.data ++ [':']) ++ '\n' :: p.data)
      = (k.data ++ [':']) :: normLines p.data := by
  unfold normLines
  rw [splitNl_append_cons, splitNl_no_nl (k.data ++ [':']) (by
    intro h
    rcases List.mem_append.mp h with h | h
    · exact hnl h
    · exact absurd (List.mem_singleton.mp h) (by decide))]
  have hcolon : (':' : Char) ∈ k.data ++ [':'] := List.mem_append_right _ (by simp)
  have hne : pyStrip (k.data ++ [':']) ≠ [] :=
    pyStrip_ne_nil_of_mem _ ':' hcolon (by decide)
  rw [List.singleton_append, List.filter_cons, if_pos (by simpa using hne)]
  rw [List.map_cons, pyRStrip_concat_nonspace k.data ':' (by decide)]

theorem blockToEntry_render (k p : String) (hk : k ∈ SUMMARY_KEYS)
    (hnl : '\n' ∉ k.data) (hstrip : pyStrip k.data = k.data) :
    blockToEntry (renderSection (k, p)).data = some (k, blockBodyToVal p) := by
  rw [renderSection_data]
  unfold blockToEntry
  rw [normLines_render k p hnl]
  simp only [List.getLast?_concat, Option.some.injEq, ↓reduceIte,
    List.dropLast_concat, hstrip]
  rw [if_pos (show (⟨k.data⟩ : String) ∈ SUMMARY_KEYS from hk)]
  rfl

theorem hasDash32_render (k p : String) (hd : '-' ∉ k.data)
    (hp : hasDash32 p.data = false) :
    hasDash32 (renderSection (k, p)).data = false := by
  rw [renderSection_data]
  unfold hasDash32
  rw [show (k.data ++ [':']) ++ '\n' :: p.data = (k.data ++ [':', '\n']) ++ p.data by simp]
  rw [hasDash32Go_append_reset (k.data ++ [':', '\n']) 0 p.data (by
      intro h
      rcases List.mem_append.mp h with h | h
      · exact hd h
      · rcases List.mem_cons.mp h with h | h
        · exact absurd h (by decide)
        · exact absurd (List.mem_singleton.mp h) (by decide))
    (by simp)]
  exact hp

theorem joinStr_data (sep : String) : ∀ (l : List String),
    (joinStr sep l).data = joinSep sep.data (l.map String.data) := by
  intro l
  induction l with
  | nil => rfl
  | cons x xs ih =>
    cases xs with
    | nil => rfl
    | cons y ys =>
      show (x ++ sep ++ joinStr sep (y :: ys)).data = _
      rw [String.data_append, String.data_append, ih]
      rfl

theorem mem_joinSep_head (sep : List Char) (a : Char) (x : List Char) (hx : a ∈ x) :
    ∀ xs, a ∈ joinSep sep (x :: xs) := by
  intro xs
  cases xs with
  | nil => exact hx
  | cons y ys =>
    show a ∈ x ++ sep ++ joinSep sep (y :: ys)
    exact List.mem_append_left _ (List.mem_append_left _ hx)

/-- Python dict assignment with a fresh key appends at the end (insertion
order is preserved). -/
theorem dictUpsert_notmem : ∀ (d : List (String × PyVal)) (k : String) (v : PyVal),
    k ∉ d.map Prod.fst → dictUpsert d k v = d ++ [(k, v)] := by
  intro d
  induction d with
  | nil => intro k v _; rfl
  | cons a t ih =>
    intro k v hk
    obtain ⟨k', v'⟩ := a
    have h1 : ¬ k' = k := by
      intro h
      exact hk (by simp [h])
    show (if k' = k then (k, v) :: t else (k', v') :: dictUpsert t k v) = _
    rw [if_neg h1, ih k v (by
      intro h
      exact hk (by simp [h]))]
    rfl

theorem foldl_upsert_append : ∀ (entries acc : List (String × PyVal)),
    (entries.map Prod.fst).Nodup →
    (∀ e ∈ entries, e.1 ∉ acc.map Prod.fst) →
    List.foldl (fun d e => dictUpsert d e.1 e.2) acc entries = acc ++ entries := by
  intro entries
  induction entries with
  | nil => intro acc _ _; simp
  | cons e t ih =>
    intro acc hnd hdisj
    have hnd' := hnd
    rw [List.map_cons, List.nodup_cons] at hnd'
    rw [List.foldl_cons, dictUpsert_notmem acc e.1 e.2 (hdisj e (by simp))]
    rw [ih (acc ++ [(e.1, e.2)]) hnd'.2 (by
      intro x hx
      rw [List.map_append, List.mem_append]
      rintro (h | h)
      · exact hdisj x (by simp [hx]) h
      · have hx1 : x.1 = e.1 := by simpa using h
        exact hnd'.1 (by
          rw [← hx1]
          exact List.mem_map.mpr ⟨x, hx, rfl⟩))]
    simp

theorem foldl_blocks_entries :
    ∀ (blks : List (List Char)) (entries acc : List (String × PyVal)),
    blks.map blockToEntry = entries.map some →
    List.foldl (fun d blk =>
        match blockToEntry blk with
        | some (k, v) => dictUpsert d k v
        | none => d) acc blks
      = List.foldl (fun d e => dictUpsert d e.1 e.2) acc entries := by
  intro blks
  induction blks with
  | nil =>
    intro entries acc h
    cases entries with
    | nil => rfl
    | cons e es => simp at h
  | cons b t ih =>
    intro entries acc h
    cases entries with
    | nil => simp at h
    | cons e es =>
      simp only [List.map_cons, List.cons.injEq] at h
      rw [List.foldl_cons, List.foldl_cons, h.1]
      obtain ⟨k, v⟩ := e
      exact ih es _ h.2

theorem lookup_map_payload (f : String → PyVal) :
    ∀ (secs : List (String × String)) (k : String),
    (secs.map (fun s => (s.1, f s.2))).lookup k = (secs.lookup k).map f := by
  intro secs
  induction secs with
  | nil => intro k; rfl
  | cons a t ih =>
    intro k
    obtain ⟨k', p⟩ := a
    simp only [List.map_cons, List.lookup]
    cases h : k == k'
    · simp [ih k]
    · rfl

theorem lookup_eq_of_perm {l₁ l₂ : List (String × String)} (hp : l₁.Perm l₂) :
    (l₁.map Prod.fst).Nodup → ∀ k, l₁.lookup k = l₂.lookup k := by
  induction hp with
  | nil => intro _ _; rfl
  | cons a hrest ih =>
    intro hnd k
    obtain ⟨k', v⟩ := a
    have hnd' : (List.map Prod.fst _).Nodup := (List.nodup_cons.mp (by
      rw [List.map_cons] at hnd
      exact hnd)).2
    simp only [List.lookup]
    cases h : k == k'
    · exact ih hnd' k
    · rfl
  | swap x y l =>
    intro hnd k
    obtain ⟨kx, vx⟩ := x
    obtain ⟨ky, vy⟩ := y
    have hne : ¬ ky = kx := by
      simp only [List.map_cons, List.nodup_cons] at hnd
      intro h
      exact hnd.1 (by simp [h])
    simp only [List.lookup]
    cases h1 : k == ky <;> cases h2 : k == kx <;> simp [h1, h2]
    exact absurd (by rw [← eq_of_beq h1, eq_of_beq h2] : ky = kx) hne
  | trans h12 h23 ih1 ih2 =>
    intro hnd k
    rw [ih1 hnd k, ih2 (((h12.map Prod.fst).nodup_iff).mp hnd) k]

theorem blocks_map_entries : ∀ (l : List (String × String)),
    (∀ s ∈ l, s.1 ∈ SUMMARY_KEYS) →
    (l.map (fun s => (renderSection s).data)).map blockToEntry
      = (l.map (fun s => (s.1, blockBodyToVal s.2))).map some := by
  intro l
  induction l with
  | nil => intro _; rfl
  | cons s t ih =>
    intro hk
    obtain ⟨k, p⟩ := s
    have hkk : k ∈ SUMMARY_KEYS := hk (k, p) (by simp)
    have hw := summary_keys_wf k hkk
    simp only [List.map_cons]
    rw [blockToEntry_render k p hkk hw.1 hw.2.2, ih (fun s hs => hk s (by simp [hs]))]

theorem blocks_no_dash32 (l : List (String × String))
    (hk : ∀ s ∈ l, s.1 ∈ SUMMARY_KEYS)
    (hp : ∀ s ∈ l, hasDash32 s.2.data = false) :
    ∀ b ∈ l.map (fun s => (renderSection s).data), hasDash32 b = false := by
  intro b hb
  rcases List.mem_map.mp hb with ⟨s, hs, rfl⟩
  obtain ⟨k, p⟩ := s
  exact hasDash32_render k p (summary_keys_wf k (hk (k, p) hs)).2.1 (hp (k, p) hs)

/-- Decoding an encoded section list with catalog-known, pairwise-distinct
keys and separator-free payloads recovers the sections in order, with each
payload replaced by its decode-normalized value. -/
theorem extract_encode (secs : List (String × String))
    (hkeys : ∀ s ∈ secs, s.1 ∈ SUMMARY_KEYS)
    (hnodup : (secs.map Prod.fst).Nodup)
    (hpay : ∀ s ∈ secs, hasDash32 s.2.data = false) :
    extractSeparateTexts (encodeSections secs)
      = secs.map (fun s => (s.1, blockBodyToVal s.2)) := by
  cases secs with
  | nil => rfl
  | cons s0 rest =>
    obtain ⟨k0, p0⟩ := s0
    have hk0 : k0 ∈ SUMMARY_KEYS := hkeys (k0, p0) (by simp)
    have hw := summary_keys_wf k0 hk0
    have hdata : (encodeSections ((k0, p0) :: rest)).data
        = joinSep ('\n' :: dash32 ++ ['\n'])
            ((renderSection (k0, p0)).data
              :: rest.map (fun s => (renderSection s).data)) := by
      show (joinStr "\n--------------------------------\n"
        (((k0, p0) :: rest).map renderSection)).data = _
      rw [joinStr_data]
      rw [show ("\n--------------------------------\n" : String).data
        = '\n' :: dash32 ++ ['\n'] by decide]
      simp only [List.map_cons, List.map_map]
      rfl
    have hcolon : (':' : Char) ∈ (encodeSections ((k0, p0) :: rest)).data := by
      rw [hdata]
      exact mem_joinSep_head _ ':' _ (by
        rw [renderSection_data]
        exact List.mem_append_left _ (List.mem_append_right _ (by simp))) _
    have hguard : pyStrip (encodeSections ((k0, p0) :: rest)).data ≠ [] :=
      pyStrip_ne_nil_of_mem _ ':' hcolon (by decide)
    have hb0 : hasDash32 (renderSection (k0, p0)).data = false :=
      hasDash32_render k0 p0 hw.2.1 (hpay (k0, p0) (by simp))
    have hbs : ∀ b ∈ rest.map (fun s => (renderSection s).data), hasDash32 b = false :=
      blocks_no_dash32 rest (fun s hs => hkeys s (by simp [hs]))
        (fun s hs => hpay s (by simp [hs]))
    have hsplit := splitSep_joinSep (renderSection (k0, p0)).data
      (rest.map (fun s => (renderSection s).data)) hb0 hbs
    unfold extractSeparateTexts
    rw [if_neg hguard]
    unfold splitSep
    rw [hdata]
    unfold splitSep at hsplit
    cases rest with
    | nil =>
      simp only [List.map_nil] at hsplit ⊢
      rw [hsplit]
      have hentries : [(renderSection (k0, p0)).data].map blockToEntry
          = ([((k0 : String), blockBodyToVal p0)]).map some := by
        show [blockToEntry (renderSection (k0, p0)).data] = [some (k0, blockBodyToVal p0)]
        rw [blockToEntry_render k0 p0 hk0 hw.1 hw.2.2]
      rw [foldl_blocks_entries _ _ [] hentries]
      rfl
    | cons s1 rest' =>
      simp only [List.map_cons] at hsplit ⊢
      rw [hsplit]
      have hentries :
          (((renderSection (k0, p0)).data ++ ['\n'])
              :: midLast ((renderSection s1).data
                :: rest'.map (fun s => (renderSection s).data))).map blockToEntry
            = (((k0, p0) :: s1 :: rest').map
                (fun s => (s.1, blockBodyToVal s.2))).map some := by
        rw [List.map_cons, blockToEntry_concat_nl,
          blockToEntry_render k0 p0 hk0 hw.1 hw.2.2, midLast_map_blockToEntry]
        rw [show (renderSection s1).data :: rest'.map (fun s => (renderSection s).data)
          = (s1 :: rest').map (fun s => (renderSection s).data) from rfl]
        rw [blocks_map_entries (s1 :: rest') (fun s hs => hkeys s (by simp [hs]))]
        rfl
      rw [foldl_blocks_entries _ _ [] hentries]
      rw [foldl_upsert_append _ [] (by
        have hmap : ((((k0, p0) :: s1 :: rest').map
              (fun s => (s.1, blockBodyToVal s.2))).map Prod.fst)
            = ((k0, p0) :: s1 :: rest').map Prod.fst := by
          rw [List.map_map]
          rfl
        rw [hmap]
        exact hnodup) (by simp)]
      simp

/-- C1 (amended): the SectionCodec round-trip holds up to the decoder's
normalization of each payload.  For sections with catalog-known,
pairwise-distinct keys and payloads free of the 32-dash separator, decoding
the encoded blob yields, for every key, the decode-normalized value
`blockBodyToVal` of that key's payload (first conjunct), and the decoded
mapping is independent of the section order (second conjunct).  The
unqualified round-trip of the spec is false: the decoder drops blank lines
and right-trims lines of the payload (see `sectioncodec_roundtrip_cex`). -/
theorem sectioncodec_roundtrip (secs secs' : List (String × String))
    (hkeys : ∀ s ∈ secs, s.1 ∈ SUMMARY_KEYS)
    (hnodup : (secs.map Prod.fst).Nodup)
    (hpay : ∀ s ∈ secs, hasDash32 s.2.data = false)
    (hperm : secs.Perm secs') :
    (∀ k : String, (extractSeparateTexts (encodeSections secs)).lookup k
        = (secs.lookup k).map blockBodyToVal)
    ∧ (∀ k : String, (extractSeparateTexts (encodeSections secs')).lookup k
        = (extractSeparateTexts (encodeSections secs)).lookup k) := by
  have h1 : ∀ k : String, (extractSeparateTexts (encodeSections secs)).lookup k
      = (secs.lookup k).map blockBodyToVal := by
    intro k
    rw [extract_encode secs hkeys hnodup hpay, lookup_map_payload blockBodyToVal secs k]
  have hkeys' : ∀ s ∈ secs', s.1 ∈ SUMMARY_KEYS :=
    fun s hs => hkeys s (hperm.mem_iff.mpr hs)
  have hnodup' : (secs'.map Prod.fst).Nodup := ((hperm.map Prod.fst).nodup_iff).mp hnodup
  have hpay' : ∀ s ∈ secs', hasDash32 s.2.data = false :=
    fun s hs => hpay s (hperm.mem_iff.mpr hs)
  refine ⟨h1, fun k => ?_⟩
  rw [extract_encode secs' hkeys' hnodup' hpay',
    lookup_map_payload blockBodyToVal secs' k, h1 k,
    lookup_eq_of_perm hperm hnodup k]

/-- C1 (counterexample to the literal round-trip): a single catalog-known
section whose payload contains an interior blank line decodes to a different
payload — the blank line is dropped — so `decode(encode(sections))` does not
reproduce the original key→payload mapping. -/
theorem sectioncodec_roundtrip_cex :
    extractSeparateTexts (encodeSections
        [("様式11　モニタリング報告書（Excel形式：45KB）.xlsx", "a\n\nb")])
      = [("様式11　モニタリング報告書（Excel形式：45KB）.xlsx",
          PyVal.obj [("content", PyVal.str "a\nb")])]
    ∧ ("a\nb" : String) ≠ "a\n\nb" :=
  ⟨by rfl, by decide⟩

theorem sectioncodec_roundtrip_witness :
    ((extractSeparateTexts (encodeSections
        [("様式11　モニタリング報告書（Excel形式：45KB）.xlsx", "A"),
         ("様式8　サービス等利用計画・障害児支援利用計画（Excel形式：46KB）.xlsx", "B")])).lookup
          "様式11　モニタリング報告書（Excel形式：45KB）.xlsx"
      = (([("様式11　モニタリング報告書（Excel形式：45KB）.xlsx", "A"),
          ("様式8　サービス等利用計画・障害児支援利用計画（Excel形式：46KB）.xlsx", "B")]
            : List (String × String)).lookup
          "様式11　モニタリング報告書（Excel形式：45KB）.xlsx").map blockBodyToVal)
    ∧ ((extractSeparateTexts (encodeSections
        [("様式8　サービス等利用計画・障害児支援利用計画（Excel形式：46KB）.xlsx", "B"),
         ("様式11　モニタリング報告書（Excel形式：45KB）.xlsx", "A")])).lookup
          "様式11　モニタリング報告書（Excel形式：45KB）.xlsx"
      = (extractSeparateTexts (encodeSections
        [("様式11　モニタリング報告書（Excel形式：45KB）.xlsx", "A"),
         ("様式8　サービス等利用計画・障害児支援利用計画（Excel形式：46KB）.xlsx", "B")])).lookup
          "様式11　モニタリング報告書（Excel形式：45KB）.xlsx") :=
  ⟨(sectioncodec_roundtrip
      [("様式11　モニタリング報告書（Excel形式：45KB）.xlsx", "A"),
       ("様式8　サービス等利用計画・障害児支援利用計画（Excel形式：46KB）.xlsx", "B")]
      [("様式8　サービス等利用計画・障害児支援利用計画（Excel形式：46KB）.xlsx", "B"),
       ("様式11　モニタリング報告書（Excel形式：45KB）.xlsx", "A")]
      (by decide) (by decide) (by decide) (by decide)).1
    "様式11　モニタリング報告書（Excel形式：45KB）.xlsx",
   (sectioncodec_roundtrip
      [("様式11　モニタリング報告書（Excel形式：45KB）.xlsx", "A"),
       ("様式8　サービス等利用計画・障害児支援利用計画（Excel形式：46KB）.xlsx", "B")]
      [("様式8　サービス等利用計画・障害児支援利用計画（Excel形式：46KB）.xlsx", "B"),
       ("様式11　モニタリング報告書（Excel形式：45KB）.xlsx", "A")]
      (by decide) (by decide) (by decide) (by decide)).2
    "様式11　モニタリング報告書（Excel形式：45KB）.xlsx"⟩
